import Mathlib

/-!
Verification of `src/coreComponents/python/modules/geosx_mesh_doctor/checks/generate_fractures_2.py`.

The file shallowly embeds the fracture-splitting pipeline of that module:
fracture-face detection (`build_fracture_info`), the node-to-cells index
(`build_node_to_cells`), the cell-to-cell adjacency graph
(`build_cell_to_cell_graph`), the split planner (`identify_split`, the
Python `__identify_split` together with its inner `NewIndex` class), the
volumetric mesh assembly (`perform_polyhedron_split`) and the fracture
surface mesh assembly (`generate_fracture_mesh`), plus the top level
`split_mesh_on_fracture` / `check` entry points.

Modelling conventions:
* point coordinates are only ever copied by the code, never computed with,
  so coordinates are modelled exactly as integer triples;
* Python dicts keyed by insertion order are modelled as association lists,
  Python sets as duplicate-free lists built by ordered insertion;
* the external `networkx.connected_components` call is modelled by an
  executable connected-components routine over the same induced subgraph
  (vertex visiting order follows the vertex list; the library's order is
  the insertion order of its underlying hash containers);
* fallible steps (missing field, the interior-face assertion, Python
  `KeyError`, and `max()` over an empty sequence, which raises
  `ValueError`) return `Except FracErr`.
-/

namespace GenFractures

/-- Coordinates of a mesh point.  The algorithm copies coordinates and never
computes with them, so an exact integer-triple model is faithful. -/
abbrev Pt := Int × Int × Int

/-- Default coordinate value (vtkPoints.SetNumberOfPoints default-initializes). -/
def pt0 : Pt := (0, 0, 0)

/-- A polyhedral cell: VTK cell-type tag plus the explicit ordered list of
faces, each face an ordered list of point ids.  This is the face description
that `cell.GetFace(i).GetPointIds()` exposes in the source. -/
structure Cell where
  ctype : Nat
  faces : List (List Nat)
deriving DecidableEq, Repr, Inhabited

/-- Placeholder cell used for out-of-range accesses (never reached on the
index ranges the source iterates over). -/
def emptyCell : Cell := ⟨0, []⟩

/-- The point-id list of a polyhedral cell (`vtkCell.GetPointIds`): the
distinct vertices of its faces, in first-traversal order. -/
def Cell.pointIds (c : Cell) : List Nat := c.faces.flatten.dedup

/-- The input unstructured mesh: points, polyhedral cells, and named per-cell
integer data arrays (the parts of `vtkUnstructuredGrid` the module reads). -/
structure Mesh where
  points : List Pt
  cells : List Cell
  cellFields : List (String × List Int)
deriving DecidableEq, Repr, Inhabited

/-- Named cell-data array lookup (`mesh.GetCellData().GetArray(field)` guarded
by `HasArray`). -/
def getCellField (m : Mesh) (name : String) : Option (List Int) :=
  (m.cellFields.find? (fun a => a.1 == name)).map (fun a => a.2)

/-- The ordered vertex tuple of local face `i` of cell `cid`. -/
def faceOf (m : Mesh) (cid i : Nat) : List Nat :=
  ((m.cells.getD cid emptyCell).faces).getD i []

/-- `mesh.GetCellNeighbors(cid, facePointIds, ...)`: the cells other than
`cid` whose point set contains every vertex of the queried face. -/
def cellNeighbors (m : Mesh) (cid : Nat) (faceVerts : List Nat) : List Nat :=
  (List.range m.cells.length).filter
    (fun j => j != cid && faceVerts.all (fun v => (m.cells.getD j emptyCell).pointIds.contains v))

/-- Failure kinds of the pipeline.  `fieldMissing` is the `ValueError` raised
when the named cell field is absent; `assertionFailed` is the
`assert neighbor_cell_ids.GetNumberOfIds() < 2` (and the surface-mesh bucket
assertion); `keyError` is a Python `KeyError` on the 3d-to-2d node map;
`emptyMax` is the `ValueError` raised by `max()` on an empty sequence. -/
inductive FracErr where
  | fieldMissing
  | assertionFailed
  | keyError
  | emptyMax
deriving DecidableEq, Repr

/-- The `FractureInfo` dataclass: for each fracture node the cells using it,
and the ordered deduplicated fracture faces. -/
structure FractureInfo where
  node_to_cells : List (Nat × List Nat)
  face_nodes : List (List Nat)
deriving DecidableEq, Repr, Inhabited

/-- One scan of the faces of qualifying cell `cid`
(the inner loop of `build_fracture_info`): for each local face, query the
neighbors, assert there is at most one, and record the local face index when
the neighbor's field value differs and is in the admitted set. -/
def scanFaces (m : Mesh) (f : List Int) (V : List Int) (cid : Nat) :
    Except FracErr (List Nat) :=
  (List.range (m.cells.getD cid emptyCell).faces.length).foldlM
    (fun acc i =>
      let nbs := cellNeighbors m cid (faceOf m cid i)
      if 2 ≤ nbs.length then .error .assertionFailed
      else
        .ok (acc ++ (nbs.filter
          (fun nb => f.getD nb 0 != f.getD cid 0 && V.contains (f.getD nb 0))).map
          (fun _ => i)))
    []

/-- The recorded `(cell, local face index)` pairs of `build_fracture_info`,
flattened in scan order (which is also the iteration order of the
`cells_to_faces` insertion-ordered dict: ascending cell id, then face order).
Cells whose field value is outside the admitted set are skipped. -/
def qualifyingPairs (m : Mesh) (f : List Int) (V : List Int) :
    Except FracErr (List (Nat × Nat)) :=
  (List.range m.cells.length).foldlM
    (fun acc cid =>
      if V.contains (f.getD cid 0) then
        (scanFaces m f V cid).map (fun fis => acc ++ fis.map (fun i => (cid, i)))
      else .ok acc)
    []

/-- Materialisation of the fracture faces: extract each recorded face's
ordered vertex tuple and keep only the first occurrence of each vertex-set
(the `face_nodes_hashes` deduplication). -/
def dedupAux (m : Mesh) : List (Nat × Nat) → List (List Nat) → List (Finset Nat) →
    List (List Nat)
  | [], acc, _ => acc
  | (c, i) :: rest, acc, seen =>
    let fn := faceOf m c i
    if fn.toFinset ∈ seen then dedupAux m rest acc seen
    else dedupAux m rest (acc ++ [fn]) (fn.toFinset :: seen)

/-- Ordered insertion into a list used as a Python set. -/
def listInsertSet (acc : List Nat) (v : Nat) : List Nat :=
  if acc.contains v then acc else acc ++ [v]

/-- Insert cell `v` into the bucket of node `k`
(`node_to_cells[node].add(cell_id)` on a `defaultdict(set)`). -/
def ntcAdd (l : List (Nat × List Nat)) (k v : Nat) : List (Nat × List Nat) :=
  match l with
  | [] => [(k, [v])]
  | (k', vs) :: rest =>
    if k' = k then (k', listInsertSet vs v) :: rest
    else (k', vs) :: ntcAdd rest k v

/-- `build_node_to_cells`: for every node of a fracture face, every cell of
the whole mesh whose point list contains that node. -/
def build_node_to_cells (m : Mesh) (face_nodes : List (List Nat)) :
    List (Nat × List Nat) :=
  let fractureNodes : List Nat := face_nodes.flatten.dedup
  (List.range m.cells.length).foldl
    (fun ntc cid =>
      let inter := (m.cells.getD cid emptyCell).pointIds.filter
        (fun v => fractureNodes.contains v)
      inter.foldl (fun ntc node => ntcAdd ntc node cid) ntc)
    []

/-- `build_fracture_info`: look up the named field, scan for fracture faces,
deduplicate them by vertex-set, and index the fracture nodes. -/
def build_fracture_info (m : Mesh) (field : String) (V : List Int) :
    Except FracErr FractureInfo :=
  match getCellField m field with
  | none => .error .fieldMissing
  | some f => do
    let pairs ← qualifyingPairs m f V
    let face_nodes := dedupAux m pairs [] []
    .ok ⟨build_node_to_cells m face_nodes, face_nodes⟩

/-- The cell-to-cell graph (`networkx.Graph`): its node list and edge list. -/
structure FGraph where
  nodes : List Nat
  edges : List (Nat × Nat)
deriving DecidableEq, Repr, Inhabited

/-- Append a cell to the bucket of a face hash
(`face_to_cells[face_hash].append(cell_id)`). -/
def faceBucketAdd (bks : List (Finset Nat × List Nat)) (h : Finset Nat) (cid : Nat) :
    List (Finset Nat × List Nat) :=
  match bks with
  | [] => [(h, [cid])]
  | (h', cs) :: rest =>
    if h' = h then (h', cs ++ [cid]) :: rest
    else (h', cs) :: faceBucketAdd rest h cid

/-- The set of cells touching the fracture by at least one node
(union of the `node_to_cells` values, as an insertion-ordered set). -/
def graphCells (ntc : List (Nat × List Nat)) : List Nat :=
  ntc.foldl (fun acc p => p.2.foldl listInsertSet acc) []

/-- `build_cell_to_cell_graph`: connect two fracture-touching cells whenever
they share a face whose vertex-set is not a fracture face. -/
def build_cell_to_cell_graph (m : Mesh) (fi : FractureInfo) : FGraph :=
  let faceHashes : List (Finset Nat) := fi.face_nodes.map List.toFinset
  let cells : List Nat := graphCells fi.node_to_cells
  let buckets : List (Finset Nat × List Nat) :=
    cells.foldl
      (fun bks cid =>
        (List.range (m.cells.getD cid emptyCell).faces.length).foldl
          (fun bks fid =>
            let h := (faceOf m cid fid).toFinset
            if h ∈ faceHashes then bks else faceBucketAdd bks h cid)
          bks)
      []
  let edges := (buckets.filter (fun b => b.2.length == 2)).map
    (fun b => (b.2.getD 0 0, b.2.getD 1 0))
  ⟨cells, edges⟩

/-- Undirected adjacency induced by an edge list. -/
def adjOf (edges : List (Nat × Nat)) (u v : Nat) : Bool :=
  edges.any (fun e => (e.1 == u && e.2 == v) || (e.1 == v && e.2 == u))

/-- One saturation pass of the component search: move every candidate vertex
adjacent to the current component into the component; repeat on fuel. -/
def grow (adj : Nat → Nat → Bool) : Nat → List Nat × List Nat → List Nat × List Nat
  | 0, s => s
  | fuel + 1, (comp, cand) =>
    let newly := cand.filter (fun v => comp.any (fun u => adj u v))
    if newly.isEmpty then (comp, cand)
    else grow adj fuel (comp ++ newly, cand.filter (fun v => !(comp.any (fun u => adj u v))))

/-- Connected components of the graph induced on a vertex list: repeatedly
grow a component from the first unvisited vertex.  This models the external
`networkx.connected_components` call on the induced subgraph. -/
def componentsAux (adj : Nat → Nat → Bool) : Nat → List Nat → List (List Nat)
  | 0, _ => []
  | _ + 1, [] => []
  | fuel + 1, v :: rest =>
    let s := grow adj (rest.length + 1) ([v], rest)
    s.1 :: componentsAux adj fuel s.2

/-- Connected components of the subgraph induced on `verts`. -/
def connectedComponents (adj : Nat → Nat → Bool) (verts : List Nat) : List (List Nat) :=
  componentsAux adj verts.length verts

/-- The split plan as the sequence of dict writes
`result[cell][node] = new_index` performed by `__identify_split`, in
execution order.  Each entry is `(cell, node, new index)`. -/
abbrev SplitPlan := List (Nat × Nat × Nat)

/-- Dict-semantics lookup of `result[cell][node]`: the last write wins. -/
def planGet (r : SplitPlan) (cell node : Nat) : Option Nat :=
  ((r.filter (fun e => e.1 == cell && e.2.1 == node)).getLast?).map (fun e => e.2.2)

/-- State of the `NewIndex` callable of `__identify_split`: `nextFresh` is
`__current_last_index + 1` (the index the next fresh draw returns), `seen`
is the `__seen` set, and `out` accumulates the plan writes. -/
structure IdState where
  nextFresh : Nat
  seen : List Nat
  out : SplitPlan
deriving DecidableEq, Repr

/-- A call of the `NewIndex` instance: the first time an index is met it is
returned unchanged; afterwards the monotone counter provides a fresh index. -/
def newIndexCall (st : IdState) (index : Nat) : Nat × IdState :=
  if index ∈ st.seen then (st.nextFresh, ⟨st.nextFresh + 1, st.seen, st.out⟩)
  else (index, ⟨st.nextFresh, index :: st.seen, st.out⟩)

/-- Process one connected component of the cells around `node`: draw the
index for this component and record it for every cell of the component. -/
def assignComp (node : Nat) (st : IdState) (comp : List Nat) : IdState :=
  let r := newIndexCall st node
  ⟨r.2.nextFresh, r.2.seen, r.2.out ++ comp.map (fun c => (c, node, r.1))⟩

/-- Process all components of the cells around `node`. -/
def assignNode (st : IdState) (node : Nat) (comps : List (List Nat)) : IdState :=
  comps.foldl (assignComp node) st

/-- The components of `cell_to_cell.subgraph(cells)` for one
`(node, cells)` pair: the subgraph keeps the cells that are graph nodes. -/
def nodeComps (g : FGraph) (p : Nat × List Nat) : List (List Nat) :=
  connectedComponents (adjOf g.edges) (p.2.filter (fun c => g.nodes.contains c))

/-- Insertion into a key-sorted association list (ascending node id). -/
def insertByKey (p : Nat × List Nat) : List (Nat × List Nat) → List (Nat × List Nat)
  | [] => [p]
  | q :: rest => if p.1 ≤ q.1 then p :: q :: rest else q :: insertByKey p rest

/-- `sorted(node_to_cells.items())`: iteration over nodes in ascending order. -/
def sortByKey (l : List (Nat × List Nat)) : List (Nat × List Nat) :=
  l.foldr insertByKey []

/-- `__identify_split`: iterate the fracture nodes in sorted order; for each
node, walk the connected components of the cells around it, the first
component keeping the node id and every later one drawing a fresh id from
the counter initialised to the mesh point count. -/
def identify_split (numPoints : Nat) (g : FGraph) (ntc : List (Nat × List Nat)) :
    SplitPlan :=
  ((sortByKey ntc).foldl (fun st p => assignNode st p.1 (nodeComps g p))
    ⟨numPoints, [], []⟩).out

/-- The volumetric output mesh: new points, the volumetric collocation array
(`collocated_nodes`, initialised to `-1`), and the rebuilt cells, each a
cell-type tag paired with the flat polyhedral face stream handed to
`InsertNextCell` (face count, then per face its vertex count and vertices). -/
structure VolMesh where
  points : List Pt
  collocated : List Int
  cells : List (Nat × List Nat)
deriving DecidableEq, Repr, Inhabited

/-- Sequential in-place writes `a[pos] := val` on a list. -/
def writeList (init : List α) (ws : List (Nat × α)) : List α :=
  ws.foldl (fun a w => a.set w.1 w.2) init

/-- The set `added_points` of `__perform_polyhedron_split`: the replacement
ids that differ from their original, as an insertion-ordered set. -/
def addedPoints (r : SplitPlan) : List Nat :=
  r.foldl (fun acc e => if e.2.1 ≠ e.2.2 then listInsertSet acc e.2.2 else acc) []

/-- The flat face stream built for one cell by `__perform_polyhedron_split`:
the number of faces, then for every face its point count followed by its
point ids with every id substituted through the cell's mapping. -/
def buildFaceStream (subst : Nat → Nat) (faces : List (List Nat)) : List Nat :=
  faces.foldl (fun acc face => acc ++ [face.length] ++ face.map subst) [faces.length]

/-- `mapping.get(p, p)` for the per-cell mapping of cell `c`. -/
def substOf (r : SplitPlan) (c : Nat) (p : Nat) : Nat :=
  (planGet r c p).getD p

/-- `__perform_polyhedron_split`: allocate the enlarged point container,
copy the original points, create the duplicated points and the volumetric
collocation array, and rebuild every cell's polyhedral face stream with the
per-cell node substitution.  The Python loop writes points and the
collocation array in the same pass; the two independent arrays are modelled
as two write sequences. -/
def perform_polyhedron_split (m : Mesh) (r : SplitPlan) : VolMesh :=
  let N := m.points.length
  let added := addedPoints r
  let numNew := N + added.length
  let copyPtW : List (Nat × Pt) := (List.range N).map (fun p => (p, m.points.getD p pt0))
  let dupPtW : List (Nat × Pt) :=
    (r.filter (fun e => e.2.1 != e.2.2)).map (fun e => (e.2.2, m.points.getD e.2.1 pt0))
  let pts := writeList (writeList (List.replicate numNew pt0) copyPtW) dupPtW
  let copyCoW : List (Nat × Int) := (List.range N).map (fun p => (p, (p : Int)))
  let dupCoW : List (Nat × Int) :=
    (r.filter (fun e => e.2.1 != e.2.2)).map (fun e => (e.2.2, (e.2.1 : Int)))
  let coll := writeList (writeList (List.replicate numNew (-1)) copyCoW) dupCoW
  let cells := (List.range m.cells.length).map
    (fun c =>
      let cell := m.cells.getD c emptyCell
      (cell.ctype, buildFaceStream (substOf r c) cell.faces))
  ⟨pts, coll, cells⟩

/-- The fracture surface mesh: 2d points, polygons in the compact 2d point
space, and the rectangular `collocated_nodes` point-data table. -/
structure FracMesh where
  points : List Pt
  polygons : List (List Nat)
  collocated : List (List Int)
deriving DecidableEq, Repr, Inhabited

/-- Turn an optional value into an `Except` (a Python `KeyError` when absent). -/
def getOrErr (o : Option α) (e : FracErr) : Except FracErr α :=
  match o with
  | some a => .ok a
  | none => .error e

/-- Union a list of values into the bucket of key `k`
(`buckets[k].update((i, o))` on a `defaultdict(set)`). -/
def bucketAdd (bks : List (Nat × List Nat)) (k : Nat) (vs : List Nat) :
    List (Nat × List Nat) :=
  match bks with
  | [] => [(k, vs.foldl listInsertSet [])]
  | (k', ws) :: rest =>
    if k' = k then (k', vs.foldl listInsertSet ws) :: rest
    else (k', ws) :: bucketAdd rest k vs

/-- Bucket lookup (defaulting to the empty set). -/
def bucketGet (bks : List (Nat × List Nat)) (k : Nat) : List Nat :=
  ((bks.find? (fun b => b.1 == k)).map (fun b => b.2)).getD []

/-- `__generate_fracture_mesh`: compact the fracture nodes into 2d indices,
emit the polygons, bucket together each original node with all its copies,
assert the buckets cover exactly the 2d index range, and materialise the
`collocated_nodes` table of width `max(map(len, buckets.values()))` — a call
that raises `ValueError` when there is no bucket at all. -/
def generate_fracture_mesh (meshPoints : List Pt) (fi : FractureInfo)
    (r : SplitPlan) : Except FracErr FracMesh := do
  let fractureNodes : List Nat := fi.node_to_cells.map (fun p => p.1)
  let numPoints : Nat := fractureNodes.length
  let pts : List Pt := fractureNodes.map (fun n => meshPoints.getD n pt0)
  let idx2d : Nat → Option Nat := fun n => fractureNodes.indexOf? n
  let polygons ← fi.face_nodes.mapM
    (fun ns => ns.mapM (fun n => getOrErr (idx2d n) .keyError))
  let buckets ← r.foldlM
    (fun bks e => do
      let k ← getOrErr (idx2d (min e.2.1 e.2.2)) .keyError
      .ok (bucketAdd bks k [e.2.1, e.2.2]))
    []
  if (buckets.map (fun b => b.1)).toFinset = Finset.range numPoints then
    if buckets.isEmpty then .error .emptyMax
    else
      let W := (buckets.map (fun b => b.2.length)).foldl Nat.max 0
      let rows := (List.range numPoints).map
        (fun k =>
          let b := bucketGet buckets k
          b.map Int.ofNat ++ List.replicate (W - b.length) (-1))
      .ok ⟨pts, polygons, rows⟩
  else .error .assertionFailed

/-- The `Options` dataclass (the two `VtkOutput` descriptors belong to the
out-of-scope I/O collaborator and are omitted). -/
structure Options where
  policy : String
  field : String
  field_type : String
  field_values : List Int
  split_on_domain_boundary : Bool
deriving DecidableEq, Repr, Inhabited

/-- The `Result` dataclass returned by `check`. -/
structure Result where
  info : String
deriving DecidableEq, Repr, Inhabited

/-- `__split_mesh_on_fracture`: the five-stage pipeline. -/
def split_mesh_on_fracture (m : Mesh) (opts : Options) :
    Except FracErr (VolMesh × FracMesh) := do
  let fi ← build_fracture_info m opts.field opts.field_values
  let g := build_cell_to_cell_graph m fi
  let plan := identify_split m.points.length g fi.node_to_cells
  let outMesh := perform_polyhedron_split m plan
  let fracMesh ← generate_fracture_mesh m.points fi plan
  .ok (outMesh, fracMesh)

/-- `check` (file reading and mesh writing belong to the I/O collaborator):
run the pipeline; any raised error is caught by the blanket
`except BaseException` handler and reported as the generic result. -/
def check (m : Mesh) (opts : Options) : Result :=
  match split_mesh_on_fracture m opts with
  | .ok _ => ⟨"OK"⟩
  | .error _ => ⟨"Something went wrong"⟩

/-! Derived notions used to state the claims. -/

/-- Parse back `k` faces from a flat face stream: each face is announced by
its vertex count.  Used to read the streams handed to `InsertNextCell`. -/
def decodeFaces : Nat → List Nat → Option (List (List Nat))
  | 0, s => if s.isEmpty then some [] else none
  | _ + 1, [] => none
  | k + 1, len :: rest =>
    if len ≤ rest.length then
      (decodeFaces k (rest.drop len)).map (fun fs => rest.take len :: fs)
    else none

/-- Parse a whole cell stream: the face count followed by the faces. -/
def decodeCellStream : List Nat → Option (List (List Nat))
  | [] => none
  | n :: rest => decodeFaces n rest

/-- Closed form of the split-plan writes for the components of one node
after the node has already been seen: each component draws the successive
counter values `f`, `f + 1`, and so on. -/
def planFresh (node f : Nat) : List (List Nat) → SplitPlan
  | [] => []
  | comp :: rest => comp.map (fun c => (c, node, f)) ++ planFresh node (f + 1) rest

/-- Closed form of the split-plan writes for one unseen node: the first
component keeps the node id, later components draw fresh ids from `f` on. -/
def planNode (node f : Nat) : List (List Nat) → SplitPlan
  | [] => []
  | comp :: rest => comp.map (fun c => (c, node, node)) ++ planFresh node f rest

/-- Closed form of the whole split plan over a list of
`(node, components)` pairs, threading the fresh counter. -/
def planAll (f : Nat) : List (Nat × List (List Nat)) → SplitPlan
  | [] => []
  | p :: rest => planNode p.1 f p.2 ++ planAll (f + (p.2.length - 1)) rest

/-- Total number of fresh draws: one per component beyond the first of each
node. -/
def totalExtra (l : List (Nat × List (List Nat))) : Nat :=
  (l.map (fun p => p.2.length - 1)).sum

/-- The set of replacement ids of a plan that differ from their original. -/
def freshSet (r : SplitPlan) : Finset Nat :=
  ((r.filter (fun e => e.2.2 != e.2.1)).map (fun e => e.2.2)).toFinset

/-- The set of ids a plan assigns to node `n` across all cells. -/
def nodeIds (r : SplitPlan) (n : Nat) : Finset Nat :=
  ((r.filter (fun e => e.2.1 == n)).map (fun e => e.2.2)).toFinset

/-- The collocation set of node `n`: the original id together with every id
the plan assigns to `n` in any cell. -/
def collocSet (r : SplitPlan) (n : Nat) : Finset Nat :=
  insert n (nodeIds r n)

/-- Cell `c` owns a face whose vertex-set is `s`. -/
def HasFaceSet (m : Mesh) (c : Nat) (s : Finset Nat) : Prop :=
  ∃ fl ∈ (m.cells.getD c emptyCell).faces, fl.toFinset = s

instance (m : Mesh) (c : Nat) (s : Finset Nat) : Decidable (HasFaceSet m c s) :=
  List.decidableBEx _ _

/-- The fracture-face contract of the spec: an interior face shared by two
cells whose field values both lie in the admitted set and differ. -/
def IsFractureFaceSet (m : Mesh) (f : List Int) (V : List Int) (s : Finset Nat) : Prop :=
  ∃ c1 ∈ Finset.range m.cells.length, ∃ c2 ∈ Finset.range m.cells.length,
    c1 ≠ c2 ∧ HasFaceSet m c1 s ∧ HasFaceSet m c2 s ∧
    f.getD c1 0 ∈ V ∧ f.getD c2 0 ∈ V ∧ f.getD c1 0 ≠ f.getD c2 0

/-- A boundary face: exactly one cell of the mesh owns a face with this
vertex-set. -/
def IsBoundaryFaceSet (m : Mesh) (s : Finset Nat) : Prop :=
  ((Finset.range m.cells.length).filter
    (fun c => ∃ fl ∈ (m.cells.getD c emptyCell).faces, fl.toFinset = s)).card = 1

/-- Mesh invariant assumed by the source's assertion: a face's vertex-set is
contained in the point set of at most one cell besides its owner. -/
def ManifoldMesh (m : Mesh) : Prop :=
  ∀ cid < m.cells.length, ∀ i < (m.cells.getD cid emptyCell).faces.length,
    (cellNeighbors m cid (faceOf m cid i)).length ≤ 1

/-- Mesh invariant of a conforming mesh: a cell whose point set contains all
vertices of some cell's face owns a face with exactly that vertex-set. -/
def ConformingMesh (m : Mesh) : Prop :=
  ∀ cid < m.cells.length, ∀ i < (m.cells.getD cid emptyCell).faces.length,
    ∀ j < m.cells.length,
      (∀ v ∈ faceOf m cid i, v ∈ (m.cells.getD j emptyCell).pointIds) →
      HasFaceSet m j (faceOf m cid i).toFinset

instance (m : Mesh) : Decidable (ManifoldMesh m) :=
  inferInstanceAs (Decidable (∀ cid < m.cells.length,
    ∀ i < (m.cells.getD cid emptyCell).faces.length,
    (cellNeighbors m cid (faceOf m cid i)).length ≤ 1))

instance (m : Mesh) : Decidable (ConformingMesh m) :=
  inferInstanceAs (Decidable (∀ cid < m.cells.length,
    ∀ i < (m.cells.getD cid emptyCell).faces.length,
    ∀ j < m.cells.length,
      (∀ v ∈ faceOf m cid i, v ∈ (m.cells.getD j emptyCell).pointIds) →
      HasFaceSet m j (faceOf m cid i).toFinset))

/-- Modelled from the spec: "the caller receives either both output meshes
or a typed failure explaining which stage rejected the input".  Since the
code's caller-visible value is the `Result` of `check`, the spec's claim
means that inputs rejected with different stage errors must yield
distinguishable results. -/
def ResultDistinguishesFailures : Prop :=
  ∀ m1 o1 m2 o2 e1 e2,
    split_mesh_on_fracture m1 o1 = .error e1 →
    split_mesh_on_fracture m2 o2 = .error e2 →
    e1 ≠ e2 → check m1 o1 ≠ check m2 o2

/-! Concrete instances used by the witnesses: two tetrahedra sharing the
triangular face `{1, 2, 3}`, with cell field values 1 and 2. -/

def tetA : Cell := ⟨42, [[1, 2, 3], [0, 1, 2], [0, 2, 3], [0, 3, 1]]⟩

def tetB : Cell := ⟨42, [[1, 2, 3], [4, 1, 2], [4, 2, 3], [4, 3, 1]]⟩

def mesh2 : Mesh :=
  ⟨[(0, 0, 0), (1, 0, 0), (0, 1, 0), (0, 0, 1), (1, 1, 1)], [tetA, tetB],
    [("attribute", [1, 2])]⟩

/-- Options admitting both field values: the shared face becomes a fracture. -/
def optsA : Options := ⟨"field", "attribute", "cells", [1, 2], false⟩

/-- Options admitting only value 1: no fracture face is detected. -/
def optsB : Options := ⟨"field", "attribute", "cells", [1], false⟩

/-- Options naming a field that the mesh does not carry. -/
def optsC : Options := ⟨"field", "missing", "cells", [1, 2], false⟩

/-- The fracture info of the two-tet mesh with both values admitted. -/
def fiA : FractureInfo :=
  ((build_fracture_info mesh2 "attribute" [1, 2]).toOption).getD ⟨[], []⟩

/-- The cell-to-cell graph of the two-tet mesh. -/
def gA : FGraph := build_cell_to_cell_graph mesh2 fiA

/-- The split plan of the two-tet mesh. -/
def planA : SplitPlan := identify_split 5 gA fiA.node_to_cells

/-! Generic list lemmas. -/

theorem foldl_append_flatten {α β : Type} (g : α → List β) :
    ∀ (l : List α) (init : List β),
      l.foldl (fun acc a => acc ++ g a) init = init ++ (l.map g).flatten := by
  intro l
  induction l with
  | nil => intro init; simp
  | cons x xs ih => intro init; simp [ih]

theorem foldlM_ok_of {α β ε : Type} {l : List α} {f : β → α → Except ε β}
    {g : β → α → β} (h : ∀ b a, a ∈ l → f b a = .ok (g b a)) :
    ∀ b, l.foldlM f b = .ok (l.foldl g b) := by
  induction l with
  | nil => intro b; rfl
  | cons x xs ih =>
    intro b
    have hx := h b x (List.mem_cons_self x xs)
    have ih' := ih (fun b a ha => h b a (List.mem_cons_of_mem x ha))
    simp only [List.foldlM_cons, hx, ih']
    rfl

theorem mapM_ok_of {α β ε : Type} {l : List α} {f : α → Except ε β} {g : α → β}
    (h : ∀ a ∈ l, f a = .ok (g a)) : l.mapM f = .ok (l.map g) := by
  induction l with
  | nil => rfl
  | cons x xs ih =>
    have hx := h x (List.mem_cons_self x xs)
    have ih' := ih (fun a ha => h a (List.mem_cons_of_mem x ha))
    rw [List.mapM_cons, hx, ih']
    rfl

theorem getD_map_range {α : Type} {n c : Nat} (fn : Nat → α) (d : α) (h : c < n) :
    (((List.range n).map fn).getD c d) = fn c := by
  rw [List.getD_eq_getElem?_getD]
  simp [List.getElem?_map, List.getElem?_range, h]

/-! The polyhedral face stream of `__perform_polyhedron_split` parses back to
the input faces with every vertex substituted (claim C4). -/

theorem buildFaceStream_eq (subst : Nat → Nat) (faces : List (List Nat)) :
    buildFaceStream subst faces =
      faces.length :: (faces.map (fun fc => fc.length :: fc.map subst)).flatten := by
  have key : ∀ (fs : List (List Nat)) (init : List Nat),
      fs.foldl (fun acc face => acc ++ (face.length :: face.map subst)) init =
        init ++ (fs.map (fun fc => fc.length :: fc.map subst)).flatten := by
    intro fs
    induction fs with
    | nil => intro init; simp
    | cons fc rest ih => intro init; simp [ih]
  have hb : ∀ (acc : List Nat) (face : List Nat),
      acc ++ [face.length] ++ face.map subst = acc ++ (face.length :: face.map subst) := by
    intro acc face; simp
  simp only [buildFaceStream]
  rw [show (fun (acc : List Nat) (face : List Nat) => acc ++ [face.length] ++ face.map subst) =
      (fun (acc : List Nat) (face : List Nat) => acc ++ (face.length :: face.map subst)) from
    funext (fun acc => funext (fun face => hb acc face))]
  simp [key]

theorem decodeFaces_encode (subst : Nat → Nat) :
    ∀ faces : List (List Nat),
      decodeFaces faces.length (faces.map (fun fc => fc.length :: fc.map subst)).flatten =
        some (faces.map (fun fc => fc.map subst)) := by
  intro faces
  induction faces with
  | nil => rfl
  | cons fc rest ih =>
    have hlen : (fc.map subst).length = fc.length := List.length_map fc subst
    show decodeFaces (rest.length + 1)
        ((fc.length :: fc.map subst) ++ (rest.map (fun fc => fc.length :: fc.map subst)).flatten) = _
    rw [List.cons_append]
    rw [show decodeFaces (rest.length + 1)
        (fc.length :: (fc.map subst ++ (rest.map (fun fc => fc.length :: fc.map subst)).flatten)) =
        if fc.length ≤ (fc.map subst ++ (rest.map (fun fc => fc.length :: fc.map subst)).flatten).length
        then (decodeFaces rest.length
            ((fc.map subst ++ (rest.map (fun fc => fc.length :: fc.map subst)).flatten).drop fc.length)).map
            (fun fs => (fc.map subst ++ (rest.map (fun fc => fc.length :: fc.map subst)).flatten).take fc.length :: fs)
        else none from rfl]
    rw [if_pos (by simp [Nat.le_add_right])]
    rw [← hlen, List.take_left, List.drop_left, ih]
    rfl

/-! Structure of `grow` and `componentsAux`: the components partition the
vertex list. -/

theorem grow_perm (adj : Nat → Nat → Bool) :
    ∀ (fuel : Nat) (comp cand : List Nat),
      List.Perm ((grow adj fuel (comp, cand)).1 ++ (grow adj fuel (comp, cand)).2) (comp ++ cand) := by
  intro fuel
  induction fuel with
  | zero => intro comp cand; exact List.Perm.refl _
  | succ fuel ih =>
    intro comp cand
    simp only [grow]
    by_cases hemp : (cand.filter (fun v => comp.any (fun u => adj u v))).isEmpty
    · rw [if_pos hemp]
    · rw [if_neg hemp]
      refine (ih _ _).trans ?_
      rw [List.append_assoc]
      exact List.Perm.append_left comp (List.filter_append_perm _ cand)

theorem grow_fst_prefix (adj : Nat → Nat → Bool) :
    ∀ (fuel : Nat) (comp cand : List Nat),
      ∃ t, (grow adj fuel (comp, cand)).1 = comp ++ t := by
  intro fuel
  induction fuel with
  | zero => intro comp cand; exact ⟨[], (List.append_nil comp).symm⟩
  | succ fuel ih =>
    intro comp cand
    simp only [grow]
    by_cases hemp : (cand.filter (fun v => comp.any (fun u => adj u v))).isEmpty
    · rw [if_pos hemp]
      exact ⟨[], (List.append_nil comp).symm⟩
    · rw [if_neg hemp]
      obtain ⟨t, ht⟩ := ih (comp ++ cand.filter (fun v => comp.any (fun u => adj u v)))
        (cand.filter (fun v => !(comp.any (fun u => adj u v))))
      exact ⟨_, by rw [ht, List.append_assoc]⟩

theorem componentsAux_flatten_perm (adj : Nat → Nat → Bool) :
    ∀ (fuel : Nat) (verts : List Nat), verts.length ≤ fuel →
      List.Perm (componentsAux adj fuel verts).flatten verts := by
  intro fuel
  induction fuel with
  | zero =>
    intro verts h
    rw [List.length_eq_zero.mp (Nat.le_zero.mp h)]
    exact List.Perm.refl _
  | succ fuel ih =>
    intro verts h
    cases verts with
    | nil => exact List.Perm.refl _
    | cons v rest =>
      show List.Perm ((grow adj (rest.length + 1) ([v], rest)).1 ::
        componentsAux adj fuel (grow adj (rest.length + 1) ([v], rest)).2).flatten _
      rw [List.flatten_cons]
      have hperm := grow_perm adj (rest.length + 1) [v] rest
      obtain ⟨t, ht⟩ := grow_fst_prefix adj (rest.length + 1) [v] rest
      have hlen2 : (grow adj (rest.length + 1) ([v], rest)).2.length ≤ fuel := by
        have := hperm.length_eq
        rw [List.length_append, List.length_append, ht] at this
        simp at this
        simp at h
        omega
      refine (List.Perm.append_left _ (ih _ hlen2)).trans ?_
      exact hperm.trans (List.Perm.refl _)

theorem componentsAux_ne_nil (adj : Nat → Nat → Bool) :
    ∀ (fuel : Nat) (verts : List Nat) (comp : List Nat),
      comp ∈ componentsAux adj fuel verts → comp ≠ [] := by
  intro fuel
  induction fuel with
  | zero => intro verts comp h; simp [componentsAux] at h
  | succ fuel ih =>
    intro verts comp h
    cases verts with
    | nil => simp [componentsAux] at h
    | cons v rest =>
      rcases List.mem_cons.mp h with rfl | h'
      · obtain ⟨t, ht⟩ := grow_fst_prefix adj (rest.length + 1) [v] rest
        rw [ht]
        simp
      · exact ih _ _ h'

theorem connectedComponents_flatten_perm (adj : Nat → Nat → Bool) (verts : List Nat) :
    List.Perm (connectedComponents adj verts).flatten verts :=
  componentsAux_flatten_perm adj verts.length verts (Nat.le_refl _)

theorem connectedComponents_ne_nil {adj : Nat → Nat → Bool} {verts comp : List Nat}
    (h : comp ∈ connectedComponents adj verts) : comp ≠ [] :=
  componentsAux_ne_nil adj verts.length verts comp h

theorem connectedComponents_nonempty {adj : Nat → Nat → Bool} {verts : List Nat}
    (h : verts ≠ []) : connectedComponents adj verts ≠ [] := by
  cases verts with
  | nil => exact absurd rfl h
  | cons v rest => simp [connectedComponents, componentsAux]

/-! Sorting the node-to-cells association list is a permutation. -/

theorem insertByKey_perm (p : Nat × List Nat) :
    ∀ l : List (Nat × List Nat), List.Perm (insertByKey p l) (p :: l) := by
  intro l
  induction l with
  | nil => exact List.Perm.refl _
  | cons q rest ih =>
    show List.Perm (if p.1 ≤ q.1 then p :: q :: rest else q :: insertByKey p rest) _
    by_cases h : p.1 ≤ q.1
    · rw [if_pos h]
    · rw [if_neg h]
      exact (List.Perm.cons q ih).trans (List.Perm.swap p q rest)

theorem sortByKey_perm (l : List (Nat × List Nat)) : List.Perm (sortByKey l) l := by
  induction l with
  | nil => exact List.Perm.refl _
  | cons p rest ih =>
    show List.Perm (insertByKey p (sortByKey rest)) _
    exact (insertByKey_perm p (sortByKey rest)).trans (List.Perm.cons p ih)

/-- C4: for every input cell, the rebuilt cell of the volumetric output
preserves the cell type, and its polyhedral face stream parses back to the
input cell's faces with the same face count and, per face, the same vertex
count and vertex order, each point id `p` replaced by `mapping.get(p, p)`. -/
theorem fracture_C4_faces_preserved (m : Mesh) (r : SplitPlan) (c : Nat)
    (h : c < m.cells.length) :
    (perform_polyhedron_split m r).cells.length = m.cells.length ∧
    ((perform_polyhedron_split m r).cells.getD c (0, [])).1 =
      (m.cells.getD c emptyCell).ctype ∧
    decodeCellStream ((perform_polyhedron_split m r).cells.getD c (0, [])).2 =
      some ((m.cells.getD c emptyCell).faces.map (fun face => face.map (substOf r c))) := by
  have hcells : (perform_polyhedron_split m r).cells =
      (List.range m.cells.length).map
        (fun c =>
          let cell := m.cells.getD c emptyCell
          (cell.ctype, buildFaceStream (substOf r c) cell.faces)) := rfl
  refine ⟨by rw [hcells]; simp, ?_, ?_⟩
  · rw [hcells, getD_map_range _ _ h]
  · rw [hcells, getD_map_range _ _ h]
    show decodeCellStream (buildFaceStream (substOf r c) (m.cells.getD c emptyCell).faces) = _
    rw [buildFaceStream_eq]
    show decodeFaces (m.cells.getD c emptyCell).faces.length _ = _
    exact decodeFaces_encode (substOf r c) (m.cells.getD c emptyCell).faces

/-- Witness for C4 at the two-tet mesh and its pipeline split plan. -/
theorem fracture_C4_faces_preserved_witness :
    1 < mesh2.cells.length ∧
    ((perform_polyhedron_split mesh2 planA).cells.length = mesh2.cells.length ∧
     ((perform_polyhedron_split mesh2 planA).cells.getD 1 (0, [])).1 =
       (mesh2.cells.getD 1 emptyCell).ctype ∧
     decodeCellStream ((perform_polyhedron_split mesh2 planA).cells.getD 1 (0, [])).2 =
       some ((mesh2.cells.getD 1 emptyCell).faces.map
         (fun face => face.map (substOf planA 1)))) :=
  ⟨by decide, fracture_C4_faces_preserved mesh2 planA 1 (by decide)⟩

/-- C7: at an input with no fracture face (the two-tet mesh with the admitted
value set `{1}`, so the neighbor's field value is outside the set), the code
does not return the empty outputs the spec promises: `max()` over the empty
bucket collection raises a `ValueError`, surfaced here as `emptyMax`.  The
second conjunct shows the detection stage indeed found no fracture face. -/
theorem fracture_C7_code_bug_eval :
    split_mesh_on_fracture mesh2 optsB = .error .emptyMax ∧
    build_fracture_info mesh2 "attribute" [1] = .ok ⟨[], []⟩ := by
  constructor
  · rfl
  · rfl

/-- C9 counterexample: `check` does not distinguish failure stages.  A
missing field (detection stage) and the empty-fracture crash (surface
assembly stage) both surface as the same generic result. -/
theorem fracture_C9_counterexample : ¬ ResultDistinguishesFailures := fun h =>
  (h mesh2 optsC mesh2 optsB .fieldMissing .emptyMax rfl rfl (by decide)) rfl

/-- C9 amended: the caller receives `Result "OK"` when the pipeline
succeeds, and the single generic `Result "Something went wrong"` — with no
stage information and no meshes — whenever any stage fails. -/
theorem fracture_C9_amended_generic_result (m : Mesh) (o : Options) :
    (∃ v, split_mesh_on_fracture m o = .ok v ∧ check m o = ⟨"OK"⟩) ∨
    (∃ e, split_mesh_on_fracture m o = .error e ∧
      check m o = ⟨"Something went wrong"⟩) := by
  cases h : split_mesh_on_fracture m o with
  | error e => exact .inr ⟨e, rfl, by simp [check, h]⟩
  | ok v => exact .inl ⟨v, rfl, by simp [check, h]⟩

/-! Closed form of `__identify_split`: the state fold equals `planAll`. -/

theorem assignNode_mem_seen (node : Nat) :
    ∀ (comps : List (List Nat)) (st : IdState), node ∈ st.seen →
      assignNode st node comps =
        ⟨st.nextFresh + comps.length, st.seen,
          st.out ++ planFresh node st.nextFresh comps⟩ := by
  intro comps
  induction comps with
  | nil =>
    intro st h
    cases st
    simp [assignNode, planFresh]
  | cons comp rest ih =>
    intro st h
    have hstep : assignComp node st comp =
        ⟨st.nextFresh + 1, st.seen, st.out ++ comp.map (fun c => (c, node, st.nextFresh))⟩ := by
      simp [assignComp, newIndexCall, h]
    show (comp :: rest).foldl (assignComp node) st = _
    rw [List.foldl_cons, hstep]
    rw [show rest.foldl (assignComp node)
        (⟨st.nextFresh + 1, st.seen, st.out ++ comp.map (fun c => (c, node, st.nextFresh))⟩ : IdState) =
      assignNode ⟨st.nextFresh + 1, st.seen,
        st.out ++ comp.map (fun c => (c, node, st.nextFresh))⟩ node rest from rfl]
    rw [ih ⟨st.nextFresh + 1, st.seen,
      st.out ++ comp.map (fun c => (c, node, st.nextFresh))⟩ h]
    simp [planFresh, IdState.mk.injEq]
    omega

theorem assignNode_not_mem_seen (node : Nat) (comps : List (List Nat)) (st : IdState)
    (h : node ∉ st.seen) :
    assignNode st node comps =
      ⟨st.nextFresh + (comps.length - 1),
        if comps.isEmpty then st.seen else node :: st.seen,
        st.out ++ planNode node st.nextFresh comps⟩ := by
  cases comps with
  | nil =>
    cases st
    simp [assignNode, planNode]
  | cons comp rest =>
    have hstep : assignComp node st comp =
        ⟨st.nextFresh, node :: st.seen, st.out ++ comp.map (fun c => (c, node, node))⟩ := by
      simp [assignComp, newIndexCall, h]
    show (comp :: rest).foldl (assignComp node) st = _
    rw [List.foldl_cons, hstep]
    rw [show rest.foldl (assignComp node)
        (⟨st.nextFresh, node :: st.seen, st.out ++ comp.map (fun c => (c, node, node))⟩ : IdState) =
      assignNode ⟨st.nextFresh, node :: st.seen,
        st.out ++ comp.map (fun c => (c, node, node))⟩ node rest from rfl]
    rw [assignNode_mem_seen node rest
      ⟨st.nextFresh, node :: st.seen, st.out ++ comp.map (fun c => (c, node, node))⟩
      (List.mem_cons_self node st.seen)]
    simp [planNode, IdState.mk.injEq]

theorem foldl_assignNode_closed :
    ∀ (l : List (Nat × List (List Nat))) (st : IdState),
      (∀ p ∈ l, p.1 ∉ st.seen) → (l.map (fun p => p.1)).Nodup →
      (l.foldl (fun st q => assignNode st q.1 q.2) st).out =
        st.out ++ planAll st.nextFresh l := by
  intro l
  induction l with
  | nil => intro st _ _; simp [planAll]
  | cons p rest ih =>
    intro st hseen hnd
    rw [List.foldl_cons]
    have hp : p.1 ∉ st.seen := hseen p (List.mem_cons_self p rest)
    rw [assignNode_not_mem_seen p.1 p.2 st hp]
    have hkey : p.1 ∉ rest.map (fun p => p.1) := (List.nodup_cons.mp hnd).1
    rw [ih _ ?_ (List.nodup_cons.mp hnd).2]
    · simp [planAll]
    · intro q hq
      show q.1 ∉ (if p.2.isEmpty then st.seen else p.1 :: st.seen)
      have h1 : q.1 ∉ st.seen := hseen q (List.mem_cons_of_mem p hq)
      have h2 : q.1 ≠ p.1 := by
        intro he
        exact hkey (he ▸ List.mem_map_of_mem (fun p => p.1) hq)
      by_cases he : p.2.isEmpty
      · rw [if_pos he]; exact h1
      · rw [if_neg he]
        intro hc
        rcases List.mem_cons.mp hc with hc | hc
        · exact h2 hc
        · exact h1 hc

theorem identify_split_eq_planAll (numPoints : Nat) (g : FGraph)
    (ntc : List (Nat × List Nat)) (hnd : (ntc.map (fun p => p.1)).Nodup) :
    identify_split numPoints g ntc =
      planAll numPoints ((sortByKey ntc).map (fun p => (p.1, nodeComps g p))) := by
  unfold identify_split
  have hfold : (sortByKey ntc).foldl (fun st p => assignNode st p.1 (nodeComps g p))
      (⟨numPoints, [], []⟩ : IdState) =
      ((sortByKey ntc).map (fun p => (p.1, nodeComps g p))).foldl
        (fun st q => assignNode st q.1 q.2) (⟨numPoints, [], []⟩ : IdState) := by
    rw [List.foldl_map]
  rw [hfold]
  have hkeysEq : ((sortByKey ntc).map (fun p => (p.1, nodeComps g p))).map (fun p => p.1) =
      (sortByKey ntc).map (fun p => p.1) := by
    rw [List.map_map]; rfl
  have hnd' : (((sortByKey ntc).map (fun p => (p.1, nodeComps g p))).map (fun p => p.1)).Nodup := by
    rw [hkeysEq]
    exact (((sortByKey_perm ntc).map (fun p => p.1)).nodup_iff).mpr hnd
  rw [foldl_assignNode_closed _ _ (fun p _ => List.not_mem_nil p.1) hnd']
  rfl

/-! Structural facts about the closed-form plans. -/

theorem mem_planFresh {e : Nat × Nat × Nat} (node : Nat) :
    ∀ (f : Nat) (comps : List (List Nat)), e ∈ planFresh node f comps →
      e.2.1 = node ∧ f ≤ e.2.2 ∧ e.2.2 < f + comps.length ∧ e.1 ∈ comps.flatten := by
  intro f comps
  induction comps generalizing f with
  | nil => intro h; simp [planFresh] at h
  | cons comp rest ih =>
    intro h
    rcases List.mem_append.mp h with h' | h'
    · obtain ⟨c, hc, he⟩ := List.mem_map.mp h'
      subst he
      refine ⟨rfl, Nat.le_refl f, by simp, ?_⟩
      simp
      exact .inl hc
    · obtain ⟨h1, h2, h3, h4⟩ := ih (f + 1) h'
      refine ⟨h1, by omega, by simp; omega, ?_⟩
      simp
      exact .inr (by simpa using h4)

theorem mem_planNode {e : Nat × Nat × Nat} (node f : Nat) (comps : List (List Nat))
    (h : e ∈ planNode node f comps) :
    e.2.1 = node ∧ (e.2.2 = node ∨ (f ≤ e.2.2 ∧ e.2.2 < f + (comps.length - 1))) ∧
      e.1 ∈ comps.flatten := by
  cases comps with
  | nil => simp [planNode] at h
  | cons comp rest =>
    rcases List.mem_append.mp h with h' | h'
    · obtain ⟨c, hc, he⟩ := List.mem_map.mp h'
      subst he
      exact ⟨rfl, .inl rfl, by simp; exact .inl hc⟩
    · obtain ⟨h1, h2, h3, h4⟩ := mem_planFresh node f rest h'
      exact ⟨h1, .inr ⟨h2, by simp; omega⟩, by simp; exact .inr (by simpa using h4)⟩

theorem mem_planAll {e : Nat × Nat × Nat} :
    ∀ (l : List (Nat × List (List Nat))) (f : Nat), e ∈ planAll f l →
      e.2.1 ∈ l.map (fun p => p.1) ∧ (e.2.2 = e.2.1 ∨ f ≤ e.2.2) := by
  intro l
  induction l with
  | nil => intro f h; simp [planAll] at h
  | cons p rest ih =>
    intro f h
    rcases List.mem_append.mp h with h' | h'
    · obtain ⟨h1, h2, _⟩ := mem_planNode p.1 f p.2 h'
      refine ⟨by simp [h1], ?_⟩
      rcases h2 with h2 | h2
      · exact .inl (h1 ▸ h2)
      · exact .inr h2.1
    · obtain ⟨h1, h2⟩ := ih _ h'
      refine ⟨by simp; exact .inr (by simpa using h1), ?_⟩
      rcases h2 with h2 | h2
      · exact .inl h2
      · exact .inr (by omega)

theorem planNode_filter_self (node f : Nat) (comps : List (List Nat)) :
    (planNode node f comps).filter (fun e => e.2.1 == node) = planNode node f comps := by
  rw [List.filter_eq_self]
  intro e he
  simp [(mem_planNode node f comps he).1]

theorem planNode_filter_other {n node f : Nat} {comps : List (List Nat)} (hne : node ≠ n) :
    (planNode node f comps).filter (fun e => e.2.1 == n) = [] := by
  rw [List.filter_eq_nil_iff]
  intro e he
  simp [(mem_planNode node f comps he).1]
  exact hne

theorem planAll_filter_other {n : Nat} :
    ∀ (l : List (Nat × List (List Nat))) (f : Nat), n ∉ l.map (fun p => p.1) →
      (planAll f l).filter (fun e => e.2.1 == n) = [] := by
  intro l
  induction l with
  | nil => intro f _; rfl
  | cons p rest ih =>
    intro f hn
    show ((planNode p.1 f p.2 ++ planAll (f + (p.2.length - 1)) rest).filter
      (fun e => e.2.1 == n)) = []
    rw [List.filter_append, planNode_filter_other (fun he => hn (by simp [he])),
      ih _ (fun hm => hn (by simp; exact .inr (by simpa using hm)))]
    rfl

theorem planAll_filter_node {n : Nat} {comps : List (List Nat)} :
    ∀ (l : List (Nat × List (List Nat))) (f : Nat),
      (l.map (fun p => p.1)).Nodup → (n, comps) ∈ l →
      ∃ f', f ≤ f' ∧
        (planAll f l).filter (fun e => e.2.1 == n) = planNode n f' comps := by
  intro l
  induction l with
  | nil => intro f _ h; simp at h
  | cons p rest ih =>
    intro f hnd hmem
    show ∃ f', f ≤ f' ∧ ((planNode p.1 f p.2 ++ planAll (f + (p.2.length - 1)) rest).filter
      (fun e => e.2.1 == n)) = planNode n f' comps
    rcases List.mem_cons.mp hmem with rfl | hmem'
    · refine ⟨f, Nat.le_refl f, ?_⟩
      rw [List.filter_append, planNode_filter_self,
        planAll_filter_other rest _ (List.nodup_cons.mp hnd).1, List.append_nil]
    · have hkey : p.1 ≠ n := by
        intro he
        have hmm : n ∈ List.map (fun p => p.1) rest :=
          List.mem_map_of_mem (fun p => p.1) hmem'
        rw [← he] at hmm
        exact (List.nodup_cons.mp hnd).1 hmm
      obtain ⟨f', hf', heq⟩ := ih (f + (p.2.length - 1)) (List.nodup_cons.mp hnd).2 hmem'
      refine ⟨f', by omega, ?_⟩
      rw [List.filter_append, planNode_filter_other hkey, heq, List.nil_append]

theorem toFinset_const_map {β : Type} (v : Nat) (l : List β) (hl : l ≠ []) :
    (l.map (fun _ => v)).toFinset = {v} := by
  ext x
  simp only [List.mem_toFinset, List.mem_map, Finset.mem_singleton]
  constructor
  · rintro ⟨a, _, rfl⟩
    rfl
  · rintro rfl
    obtain ⟨a, ha⟩ := List.exists_mem_of_ne_nil l hl
    exact ⟨a, ha, rfl⟩

theorem planFresh_ids (node : Nat) :
    ∀ (f : Nat) (comps : List (List Nat)), (∀ comp ∈ comps, comp ≠ []) →
      ((planFresh node f comps).map (fun e => e.2.2)).toFinset =
        Finset.Ico f (f + comps.length) := by
  intro f comps
  induction comps generalizing f with
  | nil => intro _; simp [planFresh]
  | cons comp rest ih =>
    intro hne
    show ((comp.map (fun c => (c, node, f)) ++ planFresh node (f + 1) rest).map
      (fun e => e.2.2)).toFinset = _
    rw [List.map_append, List.toFinset_append, List.map_map]
    rw [show ((fun (e : Nat × Nat × Nat) => e.2.2) ∘ (fun c => (c, node, f))) =
      (fun (_ : Nat) => f) from rfl]
    rw [toFinset_const_map f comp (hne comp (List.mem_cons_self comp rest)),
      ih (f + 1) (fun c hc => hne c (List.mem_cons_of_mem comp hc))]
    ext x
    simp [Finset.mem_Ico]
    omega

theorem planNode_fresh_filter (node f : Nat) (comps : List (List Nat)) (hlt : node < f) :
    (planNode node f comps).filter (fun e => e.2.2 != e.2.1) = planFresh node f comps.tail := by
  cases comps with
  | nil => rfl
  | cons comp rest =>
    show ((comp.map (fun c => (c, node, node)) ++ planFresh node f rest).filter
      (fun e => e.2.2 != e.2.1)) = _
    rw [List.filter_append]
    have h1 : (comp.map (fun c => (c, node, node))).filter (fun e => e.2.2 != e.2.1) = [] := by
      rw [List.filter_eq_nil_iff]
      intro e he
      obtain ⟨c, _, he'⟩ := List.mem_map.mp he
      subst he'
      simp
    have h2 : (planFresh node f rest).filter (fun e => e.2.2 != e.2.1) =
        planFresh node f rest := by
      rw [List.filter_eq_self]
      intro e he
      obtain ⟨hk, hge, _, _⟩ := mem_planFresh node f rest he
      simp [hk]
      omega
    rw [h1, h2, List.nil_append]
    rfl

theorem freshSet_planNode (node f : Nat) (comps : List (List Nat)) (hlt : node < f)
    (hne : ∀ comp ∈ comps, comp ≠ []) :
    freshSet (planNode node f comps) = Finset.Ico f (f + (comps.length - 1)) := by
  cases comps with
  | nil => simp [freshSet, planNode]
  | cons comp rest =>
    rw [freshSet, planNode_fresh_filter node f (comp :: rest) hlt]
    show ((planFresh node f rest).map (fun e => e.2.2)).toFinset = _
    rw [planFresh_ids node f rest (fun c hc => hne c (List.mem_cons_of_mem comp hc))]
    simp

theorem freshSet_append (r1 r2 : SplitPlan) :
    freshSet (r1 ++ r2) = freshSet r1 ∪ freshSet r2 := by
  simp [freshSet, List.filter_append, List.map_append]

theorem freshSet_planAll :
    ∀ (l : List (Nat × List (List Nat))) (f : Nat),
      (∀ p ∈ l, p.1 < f) → (∀ p ∈ l, p.2 ≠ [] ∧ ∀ comp ∈ p.2, comp ≠ []) →
      freshSet (planAll f l) = Finset.Ico f (f + totalExtra l) := by
  intro l
  induction l with
  | nil => intro f _ _; simp [freshSet, planAll, totalExtra]
  | cons p rest ih =>
    intro f hlt hne
    show freshSet (planNode p.1 f p.2 ++ planAll (f + (p.2.length - 1)) rest) = _
    rw [freshSet_append,
      freshSet_planNode p.1 f p.2 (hlt p (List.mem_cons_self p rest))
        (hne p (List.mem_cons_self p rest)).2,
      ih _ (fun q hq => by have := hlt q (List.mem_cons_of_mem p hq); omega)
        (fun q hq => hne q (List.mem_cons_of_mem p hq))]
    have ht : totalExtra (p :: rest) = (p.2.length - 1) + totalExtra rest := by
      simp [totalExtra]
    rw [ht]
    ext x
    simp [Finset.mem_Ico]
    omega

theorem planAll_fresh_same_node :
    ∀ (l : List (Nat × List (List Nat))) (f : Nat), (∀ p ∈ l, p.1 < f) →
      ∀ {e1 e2 : Nat × Nat × Nat}, e1 ∈ planAll f l → e2 ∈ planAll f l →
        e1.2.2 = e2.2.2 → e1.2.2 ≠ e1.2.1 → e2.2.2 ≠ e2.2.1 → e1.2.1 = e2.2.1 := by
  intro l
  induction l with
  | nil => intro f _ e1 e2 h1; simp [planAll] at h1
  | cons p rest ih =>
    intro f hlt e1 e2 h1 h2 heq hf1 hf2
    have hbound1 : ∀ {e : Nat × Nat × Nat}, e ∈ planNode p.1 f p.2 → e.2.2 ≠ e.2.1 →
        f ≤ e.2.2 ∧ e.2.2 < f + (p.2.length - 1) := by
      intro e he hfe
      obtain ⟨hk, hc, _⟩ := mem_planNode p.1 f p.2 he
      rcases hc with hc | hc
      · exact absurd (hk ▸ hc) hfe
      · exact hc
    have hbound2 : ∀ {e : Nat × Nat × Nat}, e ∈ planAll (f + (p.2.length - 1)) rest →
        e.2.2 ≠ e.2.1 → f + (p.2.length - 1) ≤ e.2.2 := by
      intro e he hfe
      rcases (mem_planAll rest _ he).2 with hc | hc
      · exact absurd hc hfe
      · exact hc
    rcases List.mem_append.mp h1 with h1' | h1' <;> rcases List.mem_append.mp h2 with h2' | h2'
    · rw [(mem_planNode p.1 f p.2 h1').1, (mem_planNode p.1 f p.2 h2').1]
    · have ha := hbound1 h1' hf1
      have hb := hbound2 h2' hf2
      omega
    · have ha := hbound2 h1' hf1
      have hb := hbound1 h2' hf2
      omega
    · exact ih _ (fun q hq => by have := hlt q (List.mem_cons_of_mem p hq); omega) h1' h2'
        heq hf1 hf2

theorem planFresh_coverage (node : Nat) :
    ∀ (f : Nat) (comps : List (List Nat)) {c : Nat}, c ∈ comps.flatten →
      ∃ id, (c, node, id) ∈ planFresh node f comps := by
  intro f comps
  induction comps generalizing f with
  | nil => intro c hc; simp at hc
  | cons comp rest ih =>
    intro c hc
    rw [List.flatten_cons, List.mem_append] at hc
    rcases hc with hc | hc
    · exact ⟨f, List.mem_append.mpr (.inl (List.mem_map_of_mem _ hc))⟩
    · obtain ⟨id, hid⟩ := ih (f + 1) hc
      exact ⟨id, List.mem_append.mpr (.inr hid)⟩

theorem planNode_coverage (node f : Nat) (comps : List (List Nat)) {c : Nat}
    (hc : c ∈ comps.flatten) :
    ∃ id, (c, node, id) ∈ planNode node f comps := by
  cases comps with
  | nil => simp at hc
  | cons comp rest =>
    rw [List.flatten_cons, List.mem_append] at hc
    rcases hc with hc | hc
    · exact ⟨node, List.mem_append.mpr (.inl (List.mem_map_of_mem _ hc))⟩
    · obtain ⟨id, hid⟩ := planFresh_coverage node f rest hc
      exact ⟨id, List.mem_append.mpr (.inr hid)⟩

theorem planNode_ids (node f : Nat) (comps : List (List Nat)) (hcne : comps ≠ [])
    (hall : ∀ comp ∈ comps, comp ≠ []) (hlt : node < f) :
    ((planNode node f comps).map (fun e => e.2.2)).toFinset =
      insert node (Finset.Ico f (f + (comps.length - 1))) ∧
    (insert node (Finset.Ico f (f + (comps.length - 1)))).card = comps.length := by
  cases comps with
  | nil => exact absurd rfl hcne
  | cons comp rest =>
    constructor
    · show ((comp.map (fun c => (c, node, node)) ++ planFresh node f rest).map
        (fun e => e.2.2)).toFinset = _
      rw [List.map_append, List.toFinset_append, List.map_map]
      rw [show ((fun (e : Nat × Nat × Nat) => e.2.2) ∘ (fun c => (c, node, node))) =
        (fun (_ : Nat) => node) from rfl]
      rw [toFinset_const_map node comp (hall comp (List.mem_cons_self comp rest)),
        planFresh_ids node f rest (fun c hc => hall c (List.mem_cons_of_mem comp hc))]
      ext x
      simp [Finset.mem_Ico]
    · rw [Finset.card_insert_of_not_mem (by simp [Finset.mem_Ico]; omega), Nat.card_Ico]
      simp

/-- Transfer of the node-to-cells hypotheses to the sorted, mapped list the
split planner actually folds over. -/
theorem sortMapped_keys_nodup (g : FGraph) (ntc : List (Nat × List Nat))
    (hkeys : (ntc.map (fun p => p.1)).Nodup) :
    (((sortByKey ntc).map (fun p => (p.1, nodeComps g p))).map (fun p => p.1)).Nodup := by
  rw [List.map_map]
  rw [show ((fun (p : Nat × List (List Nat)) => p.1) ∘
    (fun (p : Nat × List Nat) => (p.1, nodeComps g p))) =
    (fun (p : Nat × List Nat) => p.1) from rfl]
  exact (((sortByKey_perm ntc).map (fun p => p.1)).nodup_iff).mpr hkeys

theorem sortMapped_keys_lt (N : Nat) (g : FGraph) (ntc : List (Nat × List Nat))
    (hlt : ∀ p ∈ ntc, p.1 < N) :
    ∀ p ∈ (sortByKey ntc).map (fun p => (p.1, nodeComps g p)), p.1 < N := by
  intro p hp
  obtain ⟨q, hq, rfl⟩ := List.mem_map.mp hp
  exact hlt q (((sortByKey_perm ntc).mem_iff).mp hq)

theorem sortMapped_comps_ne (g : FGraph) (ntc : List (Nat × List Nat))
    (hne : ∀ p ∈ ntc, p.2.filter (fun c => g.nodes.contains c) ≠ []) :
    ∀ p ∈ (sortByKey ntc).map (fun p => (p.1, nodeComps g p)),
      p.2 ≠ [] ∧ ∀ comp ∈ p.2, comp ≠ [] := by
  intro p hp
  obtain ⟨q, hq, rfl⟩ := List.mem_map.mp hp
  exact ⟨connectedComponents_nonempty (hne q (((sortByKey_perm ntc).mem_iff).mp hq)),
    fun comp hc => connectedComponents_ne_nil hc⟩

/-- C2: for a fracture node `n` whose incident-cell subgraph decomposes into
`k` connected components, the split plan assigns exactly `k` distinct ids to
`n`, one of them (and only one, since all others are at least `N > n`) being
`n` itself, and every incident cell receives an id for `n`. -/
theorem fracture_C2_component_multiplicity (N : Nat) (g : FGraph)
    (ntc : List (Nat × List Nat)) (n : Nat) (cells : List Nat)
    (hkeys : (ntc.map (fun p => p.1)).Nodup)
    (hmem : (n, cells) ∈ ntc)
    (hn : n < N)
    (hne : cells.filter (fun c => g.nodes.contains c) ≠ []) :
    (nodeIds (identify_split N g ntc) n).card =
      (connectedComponents (adjOf g.edges)
        (cells.filter (fun c => g.nodes.contains c))).length ∧
    n ∈ nodeIds (identify_split N g ntc) n ∧
    (∀ id ∈ nodeIds (identify_split N g ntc) n, id ≠ n → N ≤ id) ∧
    (∀ c ∈ cells.filter (fun c => g.nodes.contains c),
      ∃ id, (c, n, id) ∈ identify_split N g ntc) := by
  rw [identify_split_eq_planAll N g ntc hkeys]
  have hmemS : (n, cells) ∈ sortByKey ntc := ((sortByKey_perm ntc).mem_iff).mpr hmem
  have hmemL : ((n, cells).1, nodeComps g (n, cells)) ∈
      (sortByKey ntc).map (fun p => (p.1, nodeComps g p)) :=
    List.mem_map_of_mem (fun p => (p.1, nodeComps g p)) hmemS
  obtain ⟨f', hf', heq⟩ := planAll_filter_node
    ((sortByKey ntc).map (fun p => (p.1, nodeComps g p))) N
    (sortMapped_keys_nodup g ntc hkeys) hmemL
  have hcompne : nodeComps g (n, cells) ≠ [] := connectedComponents_nonempty hne
  have hall : ∀ comp ∈ nodeComps g (n, cells), comp ≠ [] :=
    fun comp hc => connectedComponents_ne_nil hc
  have hlt : n < f' := by omega
  obtain ⟨hids, hcard⟩ := planNode_ids n f' (nodeComps g (n, cells)) hcompne hall hlt
  have hIds : nodeIds (planAll N ((sortByKey ntc).map (fun p => (p.1, nodeComps g p)))) n =
      insert n (Finset.Ico f' (f' + ((nodeComps g (n, cells)).length - 1))) := by
    rw [nodeIds, heq, hids]
  refine ⟨?_, ?_, ?_, ?_⟩
  · rw [hIds, hcard]
    rfl
  · rw [hIds]
    exact Finset.mem_insert_self n _
  · intro id hid hidn
    rw [hIds] at hid
    rcases Finset.mem_insert.mp hid with h | h
    · exact absurd h hidn
    · have := (Finset.mem_Ico.mp h).1
      omega
  · intro c hc
    have hcf : c ∈ (nodeComps g (n, cells)).flatten :=
      ((connectedComponents_flatten_perm (adjOf g.edges)
        (cells.filter (fun c => g.nodes.contains c))).mem_iff).mpr hc
    obtain ⟨id, hid⟩ := planNode_coverage n f' (nodeComps g (n, cells)) hcf
    refine ⟨id, ?_⟩
    have : (c, n, id) ∈ (planAll N ((sortByKey ntc).map
        (fun p => (p.1, nodeComps g p)))).filter (fun e => e.2.1 == n) := by
      rw [heq]
      exact hid
    exact List.mem_of_mem_filter this

/-- Witness for C2 at fracture node 2 of the two-tet mesh: the subgraph of
its two incident cells has two components (the shared face is the fracture),
so node 2 receives exactly two ids, one of them 2 itself. -/
theorem fracture_C2_component_multiplicity_witness :
    ((fiA.node_to_cells.map (fun p => p.1)).Nodup ∧
     (2, [0, 1]) ∈ fiA.node_to_cells ∧ 2 < 5 ∧
     ([0, 1].filter (fun c => gA.nodes.contains c)) ≠ []) ∧
    ((nodeIds (identify_split 5 gA fiA.node_to_cells) 2).card =
      (connectedComponents (adjOf gA.edges)
        ([0, 1].filter (fun c => gA.nodes.contains c))).length ∧
     2 ∈ nodeIds (identify_split 5 gA fiA.node_to_cells) 2 ∧
     (∀ id ∈ nodeIds (identify_split 5 gA fiA.node_to_cells) 2, id ≠ 2 → 5 ≤ id) ∧
     (∀ c ∈ [0, 1].filter (fun c => gA.nodes.contains c),
       ∃ id, (c, 2, id) ∈ identify_split 5 gA fiA.node_to_cells)) :=
  ⟨⟨by decide, by decide, by decide, by decide⟩,
   fracture_C2_component_multiplicity 5 gA fiA.node_to_cells 2 [0, 1]
     (by decide) (by decide) (by decide) (by decide)⟩

/-! First-component and fresh-counter facts (claim C3). -/

theorem filter_eq_singleton_of_nodup :
    ∀ {l : List Nat}, l.Nodup → ∀ {c : Nat}, c ∈ l →
      l.filter (fun x => x == c) = [c] := by
  intro l
  induction l with
  | nil => intro _ c hc; simp at hc
  | cons x xs ih =>
    intro hnd c hc
    rcases List.mem_cons.mp hc with rfl | hc'
    · rw [List.filter_cons_of_pos (by simp)]
      rw [List.filter_eq_nil_iff.mpr (fun a ha => by
        simp
        intro he
        exact (List.nodup_cons.mp hnd).1 (he ▸ ha))]
    · have hne : x ≠ c := by
        intro he
        exact (List.nodup_cons.mp hnd).1 (he ▸ hc')
      rw [List.filter_cons_of_neg (by simp [hne])]
      exact ih (List.nodup_cons.mp hnd).2 hc'

theorem map_entry_filter (node id c : Nat) (comp : List Nat) :
    (comp.map (fun c' => (c', node, id))).filter (fun e => e.1 == c) =
      (comp.filter (fun c' => c' == c)).map (fun c' => (c', node, id)) := by
  induction comp with
  | nil => rfl
  | cons x xs ih =>
    by_cases h : x = c
    · subst h
      rw [List.map_cons, List.filter_cons_of_pos (by simp),
        List.filter_cons_of_pos (by simp), List.map_cons, ih]
    · rw [List.map_cons, List.filter_cons_of_neg (by simp [h]),
        List.filter_cons_of_neg (by simp [h]), ih]

theorem planNode_filter_cell (node f : Nat) (comps : List (List Nat))
    (hnd : comps.flatten.Nodup) {c : Nat} (hc : c ∈ comps.headD []) :
    (planNode node f comps).filter (fun e => e.1 == c) = [(c, node, node)] := by
  cases comps with
  | nil => simp at hc
  | cons comp rest =>
    have hc' : c ∈ comp := hc
    rw [List.flatten_cons] at hnd
    have hcomp : comp.Nodup := hnd.of_append_left
    have hdisj : ∀ a ∈ comp, a ∉ rest.flatten := by
      intro a ha hfa
      exact (List.disjoint_of_nodup_append hnd) ha hfa
    have hfr : (planFresh node f rest).filter (fun e => e.1 == c) = [] := by
      rw [List.filter_eq_nil_iff]
      intro e he
      simp
      intro heq
      exact hdisj c hc' (heq ▸ (mem_planFresh node f rest he).2.2.2)
    show ((comp.map (fun c' => (c', node, node)) ++ planFresh node f rest).filter
      (fun e => e.1 == c)) = _
    rw [List.filter_append, map_entry_filter node node c comp,
      filter_eq_singleton_of_nodup hcomp hc', hfr]
    rfl

/-- C3: the first component of every fracture node keeps the original id;
every replacement id that differs from its original is at least `N`; the
fresh ids drawn form exactly the contiguous range starting at `N` whose
length is the total number of extra components (so the counter is a single
monotone one and no two fresh draws collide); and entries of two different
nodes never share a fresh id. -/
theorem fracture_C3_counter_and_first_component (N : Nat) (g : FGraph)
    (ntc : List (Nat × List Nat))
    (hkeys : (ntc.map (fun p => p.1)).Nodup)
    (hlt : ∀ p ∈ ntc, p.1 < N)
    (hne : ∀ p ∈ ntc, p.2.filter (fun c => g.nodes.contains c) ≠ [])
    (hnd : ∀ p ∈ ntc, p.2.Nodup) :
    (∀ p ∈ ntc, ∀ c ∈ (nodeComps g p).headD [],
      planGet (identify_split N g ntc) c p.1 = some p.1) ∧
    (∀ e ∈ identify_split N g ntc, e.2.2 ≠ e.2.1 → N ≤ e.2.2) ∧
    freshSet (identify_split N g ntc) =
      Finset.Ico N
        (N + totalExtra ((sortByKey ntc).map (fun p => (p.1, nodeComps g p)))) ∧
    (∀ e1 ∈ identify_split N g ntc, ∀ e2 ∈ identify_split N g ntc,
      e1.2.2 = e2.2.2 → e1.2.2 ≠ e1.2.1 → e2.2.2 ≠ e2.2.1 → e1.2.1 = e2.2.1) := by
  rw [identify_split_eq_planAll N g ntc hkeys]
  refine ⟨?_, ?_, ?_, ?_⟩
  · intro p hp c hc
    have hmemS : p ∈ sortByKey ntc := ((sortByKey_perm ntc).mem_iff).mpr hp
    have hmemL : (p.1, nodeComps g p) ∈
        (sortByKey ntc).map (fun p => (p.1, nodeComps g p)) :=
      List.mem_map_of_mem (fun p => (p.1, nodeComps g p)) hmemS
    obtain ⟨f', hf', heq⟩ := planAll_filter_node
      ((sortByKey ntc).map (fun p => (p.1, nodeComps g p))) N
      (sortMapped_keys_nodup g ntc hkeys) hmemL
    have hflat : (nodeComps g p).flatten.Nodup :=
      ((connectedComponents_flatten_perm (adjOf g.edges)
        (p.2.filter (fun c => g.nodes.contains c))).nodup_iff).mpr ((hnd p hp).filter _)
    rw [planGet]
    have hsplit : (planAll N ((sortByKey ntc).map (fun p => (p.1, nodeComps g p)))).filter
        (fun e => e.1 == c && e.2.1 == p.1) =
        ((planAll N ((sortByKey ntc).map (fun p => (p.1, nodeComps g p)))).filter
          (fun e => e.2.1 == p.1)).filter (fun e => e.1 == c) := by
      rw [List.filter_filter]
    rw [hsplit, heq, planNode_filter_cell p.1 f' (nodeComps g p) hflat hc]
    rfl
  · intro e he hfe
    rcases (mem_planAll _ N he).2 with h | h
    · exact absurd h hfe
    · exact h
  · exact freshSet_planAll _ N (sortMapped_keys_lt N g ntc hlt)
      (sortMapped_comps_ne g ntc hne)
  · exact fun e1 h1 e2 h2 =>
      planAll_fresh_same_node _ N (sortMapped_keys_lt N g ntc hlt) h1 h2

/-- Witness for C3 at the two-tet mesh. -/
theorem fracture_C3_counter_and_first_component_witness :
    ((fiA.node_to_cells.map (fun p => p.1)).Nodup ∧
     (∀ p ∈ fiA.node_to_cells, p.1 < 5) ∧
     (∀ p ∈ fiA.node_to_cells, p.2.filter (fun c => gA.nodes.contains c) ≠ []) ∧
     (∀ p ∈ fiA.node_to_cells, p.2.Nodup)) ∧
    ((∀ p ∈ fiA.node_to_cells, ∀ c ∈ (nodeComps gA p).headD [],
      planGet (identify_split 5 gA fiA.node_to_cells) c p.1 = some p.1) ∧
     (∀ e ∈ identify_split 5 gA fiA.node_to_cells, e.2.2 ≠ e.2.1 → 5 ≤ e.2.2) ∧
     freshSet (identify_split 5 gA fiA.node_to_cells) =
       Finset.Ico 5
         (5 + totalExtra ((sortByKey fiA.node_to_cells).map
           (fun p => (p.1, nodeComps gA p)))) ∧
     (∀ e1 ∈ identify_split 5 gA fiA.node_to_cells,
       ∀ e2 ∈ identify_split 5 gA fiA.node_to_cells,
       e1.2.2 = e2.2.2 → e1.2.2 ≠ e1.2.1 → e2.2.2 ≠ e2.2.1 → e1.2.1 = e2.2.1)) :=
  ⟨⟨by decide, by decide, by decide, by decide⟩,
   fracture_C3_counter_and_first_component 5 gA fiA.node_to_cells
     (by decide) (by decide) (by decide) (by decide)⟩

/-! Sequential array writes (`__perform_polyhedron_split`'s point and
collocation loops). -/

theorem writeList_cons {α : Type} (init : List α) (w : Nat × α) (ws : List (Nat × α)) :
    writeList init (w :: ws) = writeList (init.set w.1 w.2) ws := rfl

theorem writeList_length {α : Type} :
    ∀ (ws : List (Nat × α)) (init : List α), (writeList init ws).length = init.length := by
  intro ws
  induction ws with
  | nil => intro init; rfl
  | cons w rest ih =>
    intro init
    rw [writeList_cons, ih]
    simp

theorem getD_set_ne {α : Type} (d : α) (l : List α) {i j : Nat} (a : α) (h : i ≠ j) :
    (l.set i a).getD j d = l.getD j d := by
  rw [List.getD_eq_getElem?_getD, List.getD_eq_getElem?_getD, List.getElem?_set_ne h]

theorem getD_set_self {α : Type} (d : α) (l : List α) {i : Nat} (a : α) (h : i < l.length) :
    (l.set i a).getD i d = a := by
  rw [List.getD_eq_getElem?_getD, List.getElem?_set_self h]
  rfl

theorem writeList_getD_of_not_mem {α : Type} (d : α) :
    ∀ (ws : List (Nat × α)) (init : List α) (p : Nat), (∀ w ∈ ws, w.1 ≠ p) →
      (writeList init ws).getD p d = init.getD p d := by
  intro ws
  induction ws with
  | nil => intro init p _; rfl
  | cons w rest ih =>
    intro init p h
    rw [writeList_cons, ih _ p (fun w' hw' => h w' (List.mem_cons_of_mem w hw'))]
    exact getD_set_ne d init w.2 (h w (List.mem_cons_self w rest))

theorem writeList_getD_last {α : Type} (d : α) :
    ∀ (ws : List (Nat × α)) (init : List α) (p : Nat) (v : α),
      p < init.length → (∃ w ∈ ws, w.1 = p) → (∀ w ∈ ws, w.1 = p → w.2 = v) →
      (writeList init ws).getD p d = v := by
  intro ws
  induction ws with
  | nil =>
    intro init p v _ hex _
    obtain ⟨w, hw, _⟩ := hex
    simp at hw
  | cons w rest ih =>
    intro init p v hp hex hcons
    rw [writeList_cons]
    by_cases hrest : ∃ w' ∈ rest, w'.1 = p
    · exact ih (init.set w.1 w.2) p v (by simpa using hp) hrest
        (fun w' hw' hq => hcons w' (List.mem_cons_of_mem w hw') hq)
    · have hw : w.1 = p := by
        obtain ⟨w', hw', hq⟩ := hex
        rcases List.mem_cons.mp hw' with rfl | hw''
        · exact hq
        · exact absurd ⟨w', hw'', hq⟩ hrest
      have hv : w.2 = v := hcons w (List.mem_cons_self w rest) hw
      rw [writeList_getD_of_not_mem d rest _ p (fun w' hw' hq => hrest ⟨w', hw', hq⟩)]
      rw [← hw, ← hv]
      exact getD_set_self d init w.2 (by omega)

/-! The `added_points` set of `__perform_polyhedron_split`. -/

theorem mem_listInsertSet {acc : List Nat} {v x : Nat} :
    x ∈ listInsertSet acc v ↔ x ∈ acc ∨ x = v := by
  by_cases h : acc.contains v
  · rw [listInsertSet, if_pos h]
    have hv : v ∈ acc := List.elem_iff.mp h
    constructor
    · exact fun hx => .inl hx
    · rintro (hx | rfl)
      · exact hx
      · exact hv
  · rw [listInsertSet, if_neg h]
    simp

theorem nodup_listInsertSet {acc : List Nat} (h : acc.Nodup) (v : Nat) :
    (listInsertSet acc v).Nodup := by
  by_cases hc : acc.contains v
  · rw [listInsertSet, if_pos hc]
    exact h
  · rw [listInsertSet, if_neg hc]
    simp [List.nodup_append, h]
    intro hv
    exact hc (List.elem_iff.mpr hv)

theorem mem_addedPoints {r : SplitPlan} {x : Nat} :
    x ∈ addedPoints r ↔ ∃ e ∈ r, e.2.1 ≠ e.2.2 ∧ e.2.2 = x := by
  have key : ∀ (l : SplitPlan) (acc : List Nat),
      (x ∈ l.foldl (fun acc e => if e.2.1 ≠ e.2.2 then listInsertSet acc e.2.2 else acc) acc ↔
        x ∈ acc ∨ ∃ e ∈ l, e.2.1 ≠ e.2.2 ∧ e.2.2 = x) := by
    intro l
    induction l with
    | nil => intro acc; simp
    | cons e rest ih =>
      intro acc
      rw [List.foldl_cons]
      by_cases he : e.2.1 ≠ e.2.2
      · rw [if_pos he, ih]
        simp [mem_listInsertSet, he]
        tauto
      · rw [if_neg he, ih]
        simp [he]
  have hk := key r []
  simp only [List.not_mem_nil, false_or] at hk
  exact hk

theorem addedPoints_nodup (r : SplitPlan) : (addedPoints r).Nodup := by
  have key : ∀ (l : SplitPlan) (acc : List Nat), acc.Nodup →
      (l.foldl (fun acc e => if e.2.1 ≠ e.2.2 then listInsertSet acc e.2.2 else acc)
        acc).Nodup := by
    intro l
    induction l with
    | nil => intro acc h; exact h
    | cons e rest ih =>
      intro acc h
      rw [List.foldl_cons]
      by_cases he : e.2.1 ≠ e.2.2
      · rw [if_pos he]
        exact ih _ (nodup_listInsertSet h e.2.2)
      · rw [if_neg he]
        exact ih _ h
  exact key r [] List.nodup_nil

theorem addedPoints_toFinset (r : SplitPlan) : (addedPoints r).toFinset = freshSet r := by
  ext x
  rw [List.mem_toFinset, mem_addedPoints, freshSet, List.mem_toFinset]
  simp only [List.mem_map, List.mem_filter, bne_iff_ne]
  constructor
  · rintro ⟨e, he, hne, rfl⟩
    exact ⟨e, ⟨he, Ne.symm hne⟩, rfl⟩
  · rintro ⟨e, ⟨he, hne⟩, rfl⟩
    exact ⟨e, he, Ne.symm hne, rfl⟩

theorem addedPoints_length (r : SplitPlan) :
    (addedPoints r).length = (freshSet r).card := by
  rw [← addedPoints_toFinset, List.toFinset_card_of_nodup (addedPoints_nodup r)]

/-- Assembly facts about `__perform_polyhedron_split` under the split-plan
invariants: the grown arrays, the identity prefix of the collocation array,
the duplicate writes, and the surjectivity of the fresh range. -/
theorem perform_split_arrays (m : Mesh) (r : SplitPlan)
    (h1 : ∀ e ∈ r, e.2.1 < m.points.length)
    (h2 : ∀ e ∈ r, e.2.2 ≠ e.2.1 → m.points.length ≤ e.2.2)
    (h3 : ∀ e1 ∈ r, ∀ e2 ∈ r, e1.2.2 = e2.2.2 → e1.2.2 ≠ e1.2.1 → e2.2.2 ≠ e2.2.1 →
      e1.2.1 = e2.2.1)
    (h4 : freshSet r = Finset.Ico m.points.length
      (m.points.length + (freshSet r).card)) :
    (perform_polyhedron_split m r).collocated.length =
      m.points.length + (freshSet r).card ∧
    (perform_polyhedron_split m r).points.length =
      m.points.length + (freshSet r).card ∧
    (∀ i < m.points.length,
      (perform_polyhedron_split m r).collocated.getD i (-1) = (i : Int)) ∧
    (∀ e ∈ r, e.2.2 ≠ e.2.1 →
      (perform_polyhedron_split m r).collocated.getD e.2.2 (-1) = (e.2.1 : Int)) ∧
    (∀ i < m.points.length,
      (perform_polyhedron_split m r).points.getD i pt0 = m.points.getD i pt0) ∧
    (∀ e ∈ r, e.2.2 ≠ e.2.1 →
      (perform_polyhedron_split m r).points.getD e.2.2 pt0 = m.points.getD e.2.1 pt0) ∧
    (∀ i, m.points.length ≤ i → i < m.points.length + (freshSet r).card →
      ∃ e ∈ r, e.2.2 ≠ e.2.1 ∧ e.2.2 = i) := by
  have hC : (perform_polyhedron_split m r).collocated =
      writeList (writeList
        (List.replicate (m.points.length + (addedPoints r).length) (-1))
        ((List.range m.points.length).map (fun p => (p, (p : Int)))))
        ((r.filter (fun e => e.2.1 != e.2.2)).map (fun e => (e.2.2, (e.2.1 : Int)))) := rfl
  have hP : (perform_polyhedron_split m r).points =
      writeList (writeList
        (List.replicate (m.points.length + (addedPoints r).length) pt0)
        ((List.range m.points.length).map (fun p => (p, m.points.getD p pt0))))
        ((r.filter (fun e => e.2.1 != e.2.2)).map
          (fun e => (e.2.2, m.points.getD e.2.1 pt0))) := rfl
  have hfresh_entry : ∀ e ∈ r.filter (fun e => e.2.1 != e.2.2),
      m.points.length ≤ e.2.2 ∧ e.2.2 < m.points.length + (freshSet r).card ∧
        e.2.1 < m.points.length := by
    intro e he
    have hm := List.mem_filter.mp he
    have hne : e.2.1 ≠ e.2.2 := by simpa [bne_iff_ne] using hm.2
    have hmemF : e.2.2 ∈ freshSet r := by
      rw [freshSet, List.mem_toFinset]
      exact List.mem_map.mpr ⟨e, List.mem_filter.mpr ⟨hm.1, by simp [bne_iff_ne]; exact Ne.symm hne⟩, rfl⟩
    have hmemI := Finset.mem_Ico.mp (h4 ▸ hmemF)
    exact ⟨h2 e hm.1 (Ne.symm hne), hmemI.2, h1 e hm.1⟩
  have hlenrep : m.points.length + (addedPoints r).length =
      m.points.length + (freshSet r).card := by rw [addedPoints_length]
  have hlenC : (perform_polyhedron_split m r).collocated.length =
      m.points.length + (freshSet r).card := by
    rw [hC, writeList_length, writeList_length, List.length_replicate, hlenrep]
  have hlenP : (perform_polyhedron_split m r).points.length =
      m.points.length + (freshSet r).card := by
    rw [hP, writeList_length, writeList_length, List.length_replicate, hlenrep]
  have hinnerlenC : (writeList
      (List.replicate (m.points.length + (addedPoints r).length) (-1 : Int))
      ((List.range m.points.length).map (fun p => (p, (p : Int))))).length =
      m.points.length + (freshSet r).card := by
    rw [writeList_length, List.length_replicate, hlenrep]
  have hinnerlenP : (writeList
      (List.replicate (m.points.length + (addedPoints r).length) pt0)
      ((List.range m.points.length).map (fun p => (p, m.points.getD p pt0)))).length =
      m.points.length + (freshSet r).card := by
    rw [writeList_length, List.length_replicate, hlenrep]
  have hdup_not_low : ∀ {i : Nat}, i < m.points.length →
      ∀ w ∈ (r.filter (fun e => e.2.1 != e.2.2)).map (fun e => (e.2.2, (e.2.1 : Int))),
        w.1 ≠ i := by
    intro i hi w hw
    obtain ⟨e, he, rfl⟩ := List.mem_map.mp hw
    have := (hfresh_entry e he).1
    omega
  have hdup_not_lowP : ∀ {i : Nat}, i < m.points.length →
      ∀ w ∈ (r.filter (fun e => e.2.1 != e.2.2)).map
        (fun e => (e.2.2, m.points.getD e.2.1 pt0)), w.1 ≠ i := by
    intro i hi w hw
    obtain ⟨e, he, rfl⟩ := List.mem_map.mp hw
    have := (hfresh_entry e he).1
    omega
  have keyColl1 : ∀ i < m.points.length,
      (perform_polyhedron_split m r).collocated.getD i (-1) = (i : Int) := by
    intro i hi
    rw [hC, writeList_getD_of_not_mem (-1) _ _ i (fun w hw => hdup_not_low hi w hw)]
    refine writeList_getD_last (-1) _ _ i (i : Int) (by simp; omega) ?_ ?_
    · exact ⟨(i, (i : Int)), List.mem_map.mpr ⟨i, List.mem_range.mpr hi, rfl⟩, rfl⟩
    · intro w hw hq
      obtain ⟨p, _, rfl⟩ := List.mem_map.mp hw
      simp at hq ⊢
      omega
  have keyPts1 : ∀ i < m.points.length,
      (perform_polyhedron_split m r).points.getD i pt0 = m.points.getD i pt0 := by
    intro i hi
    rw [hP, writeList_getD_of_not_mem pt0 _ _ i (fun w hw => hdup_not_lowP hi w hw)]
    refine writeList_getD_last pt0 _ _ i (m.points.getD i pt0) (by simp; omega) ?_ ?_
    · exact ⟨(i, m.points.getD i pt0), List.mem_map.mpr ⟨i, List.mem_range.mpr hi, rfl⟩, rfl⟩
    · intro w hw hq
      obtain ⟨p, _, rfl⟩ := List.mem_map.mp hw
      simp at hq ⊢
      rw [hq]
  have keyColl2 : ∀ e ∈ r, e.2.2 ≠ e.2.1 →
      (perform_polyhedron_split m r).collocated.getD e.2.2 (-1) = (e.2.1 : Int) := by
    intro e he hfe
    have heF : e ∈ r.filter (fun e => e.2.1 != e.2.2) :=
      List.mem_filter.mpr ⟨he, by simp [bne_iff_ne]; exact Ne.symm hfe⟩
    obtain ⟨hge, hlt2, _⟩ := hfresh_entry e heF
    rw [hC]
    refine writeList_getD_last (-1) _ _ e.2.2 (e.2.1 : Int) (by rw [hinnerlenC]; omega) ?_ ?_
    · exact ⟨(e.2.2, (e.2.1 : Int)), List.mem_map.mpr ⟨e, heF, rfl⟩, rfl⟩
    · intro w hw hq
      obtain ⟨e', he', rfl⟩ := List.mem_map.mp hw
      have hm' := List.mem_filter.mp he'
      have hne' : e'.2.1 ≠ e'.2.2 := by simpa [bne_iff_ne] using hm'.2
      simp at hq ⊢
      rw [h3 e' hm'.1 e he hq (Ne.symm hne') hfe]
  have keyPts2 : ∀ e ∈ r, e.2.2 ≠ e.2.1 →
      (perform_polyhedron_split m r).points.getD e.2.2 pt0 = m.points.getD e.2.1 pt0 := by
    intro e he hfe
    have heF : e ∈ r.filter (fun e => e.2.1 != e.2.2) :=
      List.mem_filter.mpr ⟨he, by simp [bne_iff_ne]; exact Ne.symm hfe⟩
    obtain ⟨hge, hlt2, _⟩ := hfresh_entry e heF
    rw [hP]
    refine writeList_getD_last pt0 _ _ e.2.2 (m.points.getD e.2.1 pt0)
      (by rw [hinnerlenP]; omega) ?_ ?_
    · exact ⟨(e.2.2, m.points.getD e.2.1 pt0), List.mem_map.mpr ⟨e, heF, rfl⟩, rfl⟩
    · intro w hw hq
      obtain ⟨e', he', rfl⟩ := List.mem_map.mp hw
      have hm' := List.mem_filter.mp he'
      have hne' : e'.2.1 ≠ e'.2.2 := by simpa [bne_iff_ne] using hm'.2
      simp at hq ⊢
      rw [h3 e' hm'.1 e he hq (Ne.symm hne') hfe]
  have hsurj : ∀ i, m.points.length ≤ i → i < m.points.length + (freshSet r).card →
      ∃ e ∈ r, e.2.2 ≠ e.2.1 ∧ e.2.2 = i := by
    intro i hge hlt'
    have : i ∈ freshSet r := by
      rw [h4]
      exact Finset.mem_Ico.mpr ⟨hge, hlt'⟩
    rw [freshSet, List.mem_toFinset] at this
    obtain ⟨e, he, rfl⟩ := List.mem_map.mp this
    have hm := List.mem_filter.mp he
    exact ⟨e, hm.1, by simpa [bne_iff_ne] using hm.2, rfl⟩
  exact ⟨hlenC, hlenP, keyColl1, keyColl2, keyPts1, keyPts2, hsurj⟩

/-- C5: in the volumetric output the collocation table is the identity on
the original ids, maps every duplicate back to its original, and every
output point's coordinates equal the input coordinates at its table entry. -/
theorem fracture_C5_collocation_table (m : Mesh) (r : SplitPlan)
    (h1 : ∀ e ∈ r, e.2.1 < m.points.length)
    (h2 : ∀ e ∈ r, e.2.2 ≠ e.2.1 → m.points.length ≤ e.2.2)
    (h3 : ∀ e1 ∈ r, ∀ e2 ∈ r, e1.2.2 = e2.2.2 → e1.2.2 ≠ e1.2.1 → e2.2.2 ≠ e2.2.1 →
      e1.2.1 = e2.2.1)
    (h4 : freshSet r = Finset.Ico m.points.length
      (m.points.length + (freshSet r).card)) :
    (∀ i < m.points.length,
      (perform_polyhedron_split m r).collocated.getD i (-1) = (i : Int)) ∧
    (∀ e ∈ r, e.2.2 ≠ e.2.1 →
      (perform_polyhedron_split m r).collocated.getD e.2.2 (-1) = (e.2.1 : Int)) ∧
    (∀ i < (perform_polyhedron_split m r).points.length, ∃ j : Nat,
      j < m.points.length ∧
      (perform_polyhedron_split m r).collocated.getD i (-1) = (j : Int) ∧
      (perform_polyhedron_split m r).points.getD i pt0 = m.points.getD j pt0) := by
  obtain ⟨hlenC, hlenP, k1, k2, p1, p2, hs⟩ := perform_split_arrays m r h1 h2 h3 h4
  refine ⟨k1, k2, ?_⟩
  intro i hi
  rw [hlenP] at hi
  by_cases hiN : i < m.points.length
  · exact ⟨i, hiN, k1 i hiN, p1 i hiN⟩
  · obtain ⟨e, he, hfe, rfl⟩ := hs i (by omega) hi
    exact ⟨e.2.1, h1 e he, k2 e he hfe, p2 e he hfe⟩

/-- Witness for C5 at the two-tet mesh and its pipeline plan. -/
theorem fracture_C5_collocation_table_witness :
    ((∀ e ∈ planA, e.2.1 < mesh2.points.length) ∧
     (∀ e ∈ planA, e.2.2 ≠ e.2.1 → mesh2.points.length ≤ e.2.2) ∧
     (∀ e1 ∈ planA, ∀ e2 ∈ planA, e1.2.2 = e2.2.2 → e1.2.2 ≠ e1.2.1 →
       e2.2.2 ≠ e2.2.1 → e1.2.1 = e2.2.1) ∧
     freshSet planA = Finset.Ico mesh2.points.length
       (mesh2.points.length + (freshSet planA).card)) ∧
    ((∀ i < mesh2.points.length,
      (perform_polyhedron_split mesh2 planA).collocated.getD i (-1) = (i : Int)) ∧
     (∀ e ∈ planA, e.2.2 ≠ e.2.1 →
      (perform_polyhedron_split mesh2 planA).collocated.getD e.2.2 (-1) = (e.2.1 : Int)) ∧
     (∀ i < (perform_polyhedron_split mesh2 planA).points.length, ∃ j : Nat,
      j < mesh2.points.length ∧
      (perform_polyhedron_split mesh2 planA).collocated.getD i (-1) = (j : Int) ∧
      (perform_polyhedron_split mesh2 planA).points.getD i pt0 =
        mesh2.points.getD j pt0)) :=
  ⟨⟨by decide, by decide, by decide, by decide⟩,
   fracture_C5_collocation_table mesh2 planA (by decide) (by decide) (by decide) (by decide)⟩

/-- C10: the fresh ids of the pipeline's split plan form exactly the
contiguous range starting at the input point count, and consequently the
volumetric collocation array (initialised to `-1`) is fully populated with
valid input point ids — no `-1` remains. -/
theorem fracture_C10_contiguous_range_full_population (m : Mesh) (g : FGraph)
    (ntc : List (Nat × List Nat))
    (hkeys : (ntc.map (fun p => p.1)).Nodup)
    (hlt : ∀ p ∈ ntc, p.1 < m.points.length)
    (hne : ∀ p ∈ ntc, p.2.filter (fun c => g.nodes.contains c) ≠ []) :
    freshSet (identify_split m.points.length g ntc) =
      Finset.Ico m.points.length
        (m.points.length + (freshSet (identify_split m.points.length g ntc)).card) ∧
    (perform_polyhedron_split m
      (identify_split m.points.length g ntc)).collocated.length =
      m.points.length + (freshSet (identify_split m.points.length g ntc)).card ∧
    (∀ i < (perform_polyhedron_split m
        (identify_split m.points.length g ntc)).collocated.length,
      0 ≤ (perform_polyhedron_split m
        (identify_split m.points.length g ntc)).collocated.getD i (-1) ∧
      (perform_polyhedron_split m
        (identify_split m.points.length g ntc)).collocated.getD i (-1) <
        (m.points.length : Int)) := by
  have hmaster : identify_split m.points.length g ntc =
      planAll m.points.length ((sortByKey ntc).map (fun p => (p.1, nodeComps g p))) :=
    identify_split_eq_planAll m.points.length g ntc hkeys
  have hfs : freshSet (identify_split m.points.length g ntc) =
      Finset.Ico m.points.length (m.points.length +
        totalExtra ((sortByKey ntc).map (fun p => (p.1, nodeComps g p)))) := by
    rw [hmaster]
    exact freshSet_planAll _ m.points.length (sortMapped_keys_lt m.points.length g ntc hlt)
      (sortMapped_comps_ne g ntc hne)
  have hcard : (freshSet (identify_split m.points.length g ntc)).card =
      totalExtra ((sortByKey ntc).map (fun p => (p.1, nodeComps g p))) := by
    rw [hfs, Nat.card_Ico]
    omega
  have h4 : freshSet (identify_split m.points.length g ntc) =
      Finset.Ico m.points.length
        (m.points.length + (freshSet (identify_split m.points.length g ntc)).card) := by
    rw [hcard]
    exact hfs
  have h1 : ∀ e ∈ identify_split m.points.length g ntc, e.2.1 < m.points.length := by
    intro e he
    rw [hmaster] at he
    obtain ⟨q, hq, he1⟩ := List.mem_map.mp (mem_planAll _ m.points.length he).1
    rw [← he1]
    exact sortMapped_keys_lt m.points.length g ntc hlt q hq
  have h2 : ∀ e ∈ identify_split m.points.length g ntc, e.2.2 ≠ e.2.1 →
      m.points.length ≤ e.2.2 := by
    intro e he hfe
    rw [hmaster] at he
    rcases (mem_planAll _ m.points.length he).2 with h | h
    · exact absurd h hfe
    · exact h
  have h3 : ∀ e1 ∈ identify_split m.points.length g ntc,
      ∀ e2 ∈ identify_split m.points.length g ntc,
      e1.2.2 = e2.2.2 → e1.2.2 ≠ e1.2.1 → e2.2.2 ≠ e2.2.1 → e1.2.1 = e2.2.1 := by
    intro e1 he1 e2 he2
    rw [hmaster] at he1 he2
    exact planAll_fresh_same_node _ m.points.length
      (sortMapped_keys_lt m.points.length g ntc hlt) he1 he2
  obtain ⟨hlenC, _, k1, k2, _, _, hs⟩ :=
    perform_split_arrays m (identify_split m.points.length g ntc) h1 h2 h3 h4
  refine ⟨h4, hlenC, ?_⟩
  intro i hi
  rw [hlenC] at hi
  by_cases hiN : i < m.points.length
  · rw [k1 i hiN]
    constructor
    · exact Int.ofNat_nonneg i
    · exact_mod_cast hiN
  · obtain ⟨e, he, hfe, rfl⟩ := hs i (by omega) hi
    rw [k2 e he hfe]
    constructor
    · exact Int.ofNat_nonneg e.2.1
    · exact_mod_cast h1 e he

/-- Witness for C10 at the two-tet mesh. -/
theorem fracture_C10_contiguous_range_full_population_witness :
    ((fiA.node_to_cells.map (fun p => p.1)).Nodup ∧
     (∀ p ∈ fiA.node_to_cells, p.1 < mesh2.points.length) ∧
     (∀ p ∈ fiA.node_to_cells, p.2.filter (fun c => gA.nodes.contains c) ≠ [])) ∧
    (freshSet (identify_split mesh2.points.length gA fiA.node_to_cells) =
      Finset.Ico mesh2.points.length
        (mesh2.points.length +
          (freshSet (identify_split mesh2.points.length gA fiA.node_to_cells)).card) ∧
    (perform_polyhedron_split mesh2
      (identify_split mesh2.points.length gA fiA.node_to_cells)).collocated.length =
      mesh2.points.length +
        (freshSet (identify_split mesh2.points.length gA fiA.node_to_cells)).card ∧
    (∀ i < (perform_polyhedron_split mesh2
        (identify_split mesh2.points.length gA fiA.node_to_cells)).collocated.length,
      0 ≤ (perform_polyhedron_split mesh2
        (identify_split mesh2.points.length gA fiA.node_to_cells)).collocated.getD i (-1) ∧
      (perform_polyhedron_split mesh2
        (identify_split mesh2.points.length gA fiA.node_to_cells)).collocated.getD i (-1) <
        (mesh2.points.length : Int))) :=
  ⟨⟨by decide, by decide, by decide⟩,
   fracture_C10_contiguous_range_full_population mesh2 gA fiA.node_to_cells
     (by decide) (by decide) (by decide)⟩

/-! The 3d-to-2d node numbering and the collocation buckets of
`__generate_fracture_mesh` (claim C6). -/

theorem indexOf?_cons (x n : Nat) (xs : List Nat) :
    (x :: xs).indexOf? n = if x == n then some 0 else (xs.indexOf? n).map (· + 1) := by
  simp [List.indexOf?, List.findIdx?_cons]

theorem indexOf?_of_mem : ∀ {l : List Nat} {n : Nat}, n ∈ l →
    ∃ v, l.indexOf? n = some v ∧ v < l.length ∧ l.getD v 0 = n := by
  intro l
  induction l with
  | nil => intro n h; simp at h
  | cons x xs ih =>
    intro n h
    rw [indexOf?_cons]
    by_cases hx : x = n
    · exact ⟨0, by simp [hx], by simp, by simp [hx]⟩
    · have h' : n ∈ xs := by
        rcases List.mem_cons.mp h with rfl | h'
        · exact absurd rfl hx
        · exact h'
      obtain ⟨v, hv, hlt, hg⟩ := ih h'
      refine ⟨v + 1, by simp [hx, hv], by simp; omega, by simpa using hg⟩

theorem indexOf?_getD_nodup : ∀ {l : List Nat}, l.Nodup → ∀ {k : Nat}, k < l.length →
    l.indexOf? (l.getD k 0) = some k := by
  intro l
  induction l with
  | nil => intro _ k hk; simp at hk
  | cons x xs ih =>
    intro hnd k hk
    cases k with
    | zero => rw [indexOf?_cons]; simp
    | succ k' =>
      have hk' : k' < xs.length := by simpa using hk
      have hmem : xs.getD k' 0 ∈ xs := by
        rw [List.getD_eq_getElem xs 0 hk']
        exact List.getElem_mem hk'
      rw [indexOf?_cons]
      have hx : ¬ (x == xs.getD (k' + 1 - 1) 0) := by
        simp
        intro he
        exact (List.nodup_cons.mp hnd).1 (by simpa [he] using hmem)
      simp only [List.getD_cons_succ]
      rw [if_neg (by simpa using hx), ih (List.nodup_cons.mp hnd).2 hk']
      rfl

theorem bucketGet_cons (b : Nat × List Nat) (rest : List (Nat × List Nat)) (k : Nat) :
    bucketGet (b :: rest) k = if b.1 = k then b.2 else bucketGet rest k := by
  by_cases h : b.1 = k
  · rw [if_pos h, bucketGet, List.find?_cons_of_pos _ (by simpa using h)]
    rfl
  · rw [if_neg h, bucketGet, List.find?_cons_of_neg _ (by simpa using h)]
    rfl

theorem bucketGet_bucketAdd_same :
    ∀ (bks : List (Nat × List Nat)) (k : Nat) (vs : List Nat),
      bucketGet (bucketAdd bks k vs) k = vs.foldl listInsertSet (bucketGet bks k) := by
  intro bks
  induction bks with
  | nil => intro k vs; rw [bucketAdd, bucketGet_cons, if_pos rfl]; rfl
  | cons b rest ih =>
    intro k vs
    obtain ⟨k', ws⟩ := b
    show bucketGet (if k' = k then (k', vs.foldl listInsertSet ws) :: rest
      else (k', ws) :: bucketAdd rest k vs) k = _
    by_cases h : k' = k
    · rw [if_pos h, bucketGet_cons, if_pos h, bucketGet_cons, if_pos h]
    · rw [if_neg h, bucketGet_cons, if_neg h, bucketGet_cons, if_neg h, ih]

theorem bucketGet_bucketAdd_other :
    ∀ (bks : List (Nat × List Nat)) (k k'' : Nat) (vs : List Nat), k'' ≠ k →
      bucketGet (bucketAdd bks k vs) k'' = bucketGet bks k'' := by
  intro bks
  induction bks with
  | nil =>
    intro k k'' vs h
    rw [bucketAdd, bucketGet_cons, if_neg (fun he => h he.symm)]
  | cons b rest ih =>
    intro k k'' vs h
    obtain ⟨k', ws⟩ := b
    show bucketGet (if k' = k then (k', vs.foldl listInsertSet ws) :: rest
      else (k', ws) :: bucketAdd rest k vs) k'' = _
    by_cases hk : k' = k
    · rw [if_pos hk, bucketGet_cons, bucketGet_cons]
      subst hk
      rw [if_neg (fun he => h he.symm), if_neg (fun he => h he.symm)]
    · rw [if_neg hk, bucketGet_cons, bucketGet_cons]
      by_cases he : k' = k''
      · rw [if_pos he, if_pos he]
      · rw [if_neg he, if_neg he, ih _ _ _ h]

theorem bucketAdd_keys :
    ∀ (bks : List (Nat × List Nat)) (k : Nat) (vs : List Nat) (k'' : Nat),
      k'' ∈ (bucketAdd bks k vs).map (fun b => b.1) ↔
        k'' ∈ bks.map (fun b => b.1) ∨ k'' = k := by
  intro bks
  induction bks with
  | nil => intro k vs k''; simp [bucketAdd]
  | cons b rest ih =>
    intro k vs k''
    obtain ⟨k', ws⟩ := b
    show k'' ∈ (if k' = k then (k', vs.foldl listInsertSet ws) :: rest
      else (k', ws) :: bucketAdd rest k vs).map (fun b => b.1) ↔ _
    by_cases h : k' = k
    · subst h
      rw [if_pos rfl]
      simp
      tauto
    · rw [if_neg h]
      simp [ih]
      tauto

theorem bucketAdd_keys_nodup :
    ∀ (bks : List (Nat × List Nat)) (k : Nat) (vs : List Nat),
      (bks.map (fun b => b.1)).Nodup → ((bucketAdd bks k vs).map (fun b => b.1)).Nodup := by
  intro bks
  induction bks with
  | nil => intro k vs _; simp [bucketAdd]
  | cons b rest ih =>
    intro k vs hnd
    obtain ⟨k', ws⟩ := b
    show ((if k' = k then (k', vs.foldl listInsertSet ws) :: rest
      else (k', ws) :: bucketAdd rest k vs).map (fun b => b.1)).Nodup
    by_cases h : k' = k
    · rw [if_pos h]
      simpa using hnd
    · rw [if_neg h]
      rw [List.map_cons, List.nodup_cons]
      refine ⟨?_, ih _ _ (by simpa using (List.nodup_cons.mp (by simpa using hnd)).2)⟩
      rw [bucketAdd_keys]
      push_neg
      exact ⟨(List.nodup_cons.mp (by simpa using hnd)).1, h⟩

theorem foldl_listInsertSet_mem :
    ∀ (vs ws : List Nat) (x : Nat),
      x ∈ vs.foldl listInsertSet ws ↔ x ∈ ws ∨ x ∈ vs := by
  intro vs
  induction vs with
  | nil => intro ws x; simp
  | cons v rest ih =>
    intro ws x
    rw [List.foldl_cons, ih]
    rw [mem_listInsertSet]
    simp
    tauto

theorem foldl_listInsertSet_nodup :
    ∀ (vs ws : List Nat), ws.Nodup → (vs.foldl listInsertSet ws).Nodup := by
  intro vs
  induction vs with
  | nil => intro ws h; exact h
  | cons v rest ih => intro ws h; exact ih _ (nodup_listInsertSet h v)

theorem foldl_max_le (c : Nat) :
    ∀ (l : List Nat) (a : Nat), (∀ x ∈ l, x ≤ c) → a ≤ c → l.foldl Nat.max a ≤ c := by
  intro l
  induction l with
  | nil => intro a _ ha; exact ha
  | cons x xs ih =>
    intro a hall ha
    rw [List.foldl_cons]
    exact ih _ (fun y hy => hall y (List.mem_cons_of_mem x hy))
      (Nat.max_le.mpr ⟨ha, hall x (List.mem_cons_self x xs)⟩)

theorem le_foldl_max :
    ∀ (l : List Nat) (a : Nat), a ≤ l.foldl Nat.max a ∧ ∀ x ∈ l, x ≤ l.foldl Nat.max a := by
  intro l
  induction l with
  | nil => intro a; exact ⟨Nat.le_refl a, fun x hx => by simp at hx⟩
  | cons x xs ih =>
    intro a
    rw [List.foldl_cons]
    refine ⟨Nat.le_trans (Nat.le_max_left a x) (ih (Nat.max a x)).1, ?_⟩
    intro y hy
    rcases List.mem_cons.mp hy with rfl | hy'
    · exact Nat.le_trans (Nat.le_max_right a y) (ih (Nat.max a y)).1
    · exact (ih (Nat.max a x)).2 y hy'

theorem bucketGet_of_mem_nodup :
    ∀ (bks : List (Nat × List Nat)), (bks.map (fun b => b.1)).Nodup →
      ∀ {k : Nat} {ws : List Nat}, (k, ws) ∈ bks → bucketGet bks k = ws := by
  intro bks
  induction bks with
  | nil => intro _ k ws h; simp at h
  | cons b rest ih =>
    intro hnd k ws h
    rw [bucketGet_cons]
    rcases List.mem_cons.mp h with rfl | h'
    · rw [if_pos rfl]
    · by_cases hk : b.1 = k
      · exfalso
        have : k ∈ rest.map (fun b => b.1) := by
          exact List.mem_map.mpr ⟨(k, ws), h', rfl⟩
        rw [List.map_cons, List.nodup_cons] at hnd
        exact hnd.1 (hk ▸ this)
      · rw [if_neg hk]
        exact ih (by rw [List.map_cons, List.nodup_cons] at hnd; exact hnd.2) h'

theorem bucketGet_mem_of_key :
    ∀ (bks : List (Nat × List Nat)) {k : Nat}, k ∈ bks.map (fun b => b.1) →
      (k, bucketGet bks k) ∈ bks := by
  intro bks
  induction bks with
  | nil => intro k h; simp at h
  | cons b rest ih =>
    intro k h
    rw [bucketGet_cons]
    by_cases hk : b.1 = k
    · rw [if_pos hk]
      subst hk
      exact List.mem_cons_self b rest
    · rw [if_neg hk]
      have h' : k ∈ rest.map (fun b => b.1) := by
        rcases List.mem_map.mp h with ⟨q, hq, hq1⟩
        rcases List.mem_cons.mp hq with rfl | hq'
        · exact absurd hq1 hk
        · exact List.mem_map.mpr ⟨q, hq', hq1⟩
      exact List.mem_cons_of_mem b (ih h')

theorem bucketsFold_keys (keys : List Nat) :
    ∀ (r : SplitPlan) (acc : List (Nat × List Nat)) (k : Nat),
      k ∈ (r.foldl (fun bks e => bucketAdd bks ((keys.indexOf? (min e.2.1 e.2.2)).getD 0)
          [e.2.1, e.2.2]) acc).map (fun b => b.1) ↔
        k ∈ acc.map (fun b => b.1) ∨
          ∃ e ∈ r, ((keys.indexOf? (min e.2.1 e.2.2)).getD 0) = k := by
  intro r
  induction r with
  | nil => intro acc k; simp
  | cons e rest ih =>
    intro acc k
    rw [List.foldl_cons, ih, bucketAdd_keys]
    simp
    tauto

theorem bucketsFold_get (keys : List Nat) :
    ∀ (r : SplitPlan) (acc : List (Nat × List Nat)) (k x : Nat),
      x ∈ bucketGet (r.foldl (fun bks e => bucketAdd bks
          ((keys.indexOf? (min e.2.1 e.2.2)).getD 0) [e.2.1, e.2.2]) acc) k ↔
        x ∈ bucketGet acc k ∨
          ∃ e ∈ r, ((keys.indexOf? (min e.2.1 e.2.2)).getD 0) = k ∧
            (x = e.2.1 ∨ x = e.2.2) := by
  intro r
  induction r with
  | nil => intro acc k x; simp
  | cons e rest ih =>
    intro acc k x
    rw [List.foldl_cons, ih]
    by_cases hk : ((keys.indexOf? (min e.2.1 e.2.2)).getD 0) = k
    · rw [hk, bucketGet_bucketAdd_same, foldl_listInsertSet_mem]
      constructor
      · rintro ((h | h) | ⟨e', he', hp⟩)
        · exact .inl h
        · refine .inr ⟨e, List.mem_cons_self e rest, hk, ?_⟩
          simpa using h
        · exact .inr ⟨e', List.mem_cons_of_mem e he', hp⟩
      · rintro (h | ⟨e', he', hp⟩)
        · exact .inl (.inl h)
        · rcases List.mem_cons.mp he' with rfl | he''
          · exact .inl (.inr (by simpa using hp.2))
          · exact .inr ⟨e', he'', hp⟩
    · rw [bucketGet_bucketAdd_other _ _ _ _ (fun he => hk he.symm)]
      constructor
      · rintro (h | ⟨e', he', hp⟩)
        · exact .inl h
        · exact .inr ⟨e', List.mem_cons_of_mem e he', hp⟩
      · rintro (h | ⟨e', he', hp⟩)
        · exact .inl h
        · rcases List.mem_cons.mp he' with rfl | he''
          · exact absurd hp.1 hk
          · exact .inr ⟨e', he'', hp⟩

theorem bucketsFold_get_nodup (keys : List Nat) :
    ∀ (r : SplitPlan) (acc : List (Nat × List Nat)),
      (∀ k, (bucketGet acc k).Nodup) →
      ∀ k, (bucketGet (r.foldl (fun bks e => bucketAdd bks
        ((keys.indexOf? (min e.2.1 e.2.2)).getD 0) [e.2.1, e.2.2]) acc) k).Nodup := by
  intro r
  induction r with
  | nil => intro acc h k; exact h k
  | cons e rest ih =>
    intro acc h k
    rw [List.foldl_cons]
    refine ih _ ?_ k
    intro k'
    by_cases hk : ((keys.indexOf? (min e.2.1 e.2.2)).getD 0) = k'
    · rw [← hk, bucketGet_bucketAdd_same]
      exact foldl_listInsertSet_nodup _ _ (h _)
    · rw [bucketGet_bucketAdd_other _ _ _ _ (fun he => hk he.symm)]
      exact h k'

theorem bucketsFold_keys_nodup (keys : List Nat) :
    ∀ (r : SplitPlan) (acc : List (Nat × List Nat)),
      (acc.map (fun b => b.1)).Nodup →
      ((r.foldl (fun bks e => bucketAdd bks
        ((keys.indexOf? (min e.2.1 e.2.2)).getD 0) [e.2.1, e.2.2]) acc).map
          (fun b => b.1)).Nodup := by
  intro r
  induction r with
  | nil => intro acc h; exact h
  | cons e rest ih =>
    intro acc h
    rw [List.foldl_cons]
    exact ih _ (bucketAdd_keys_nodup _ _ _ h)

theorem foldl_max_choice :
    ∀ (l : List Nat) (a : Nat), l.foldl Nat.max a = a ∨ l.foldl Nat.max a ∈ l := by
  intro l
  induction l with
  | nil => intro a; exact .inl rfl
  | cons x xs ih =>
    intro a
    rw [List.foldl_cons]
    rcases ih (Nat.max a x) with h | h
    · rcases max_choice a x with hm | hm
      · exact .inl (h.trans hm)
      · exact .inr (List.mem_cons.mpr (.inl (h.trans hm)))
    · exact .inr (List.mem_cons_of_mem x h)

theorem mem_nodeIds {r : SplitPlan} {n x : Nat} :
    x ∈ nodeIds r n ↔ ∃ e ∈ r, e.2.1 = n ∧ e.2.2 = x := by
  rw [nodeIds, List.mem_toFinset]
  simp only [List.mem_map, List.mem_filter, beq_iff_eq]
  constructor
  · rintro ⟨e, ⟨he, h1⟩, rfl⟩
    exact ⟨e, he, h1, rfl⟩
  · rintro ⟨e, he, h1, rfl⟩
    exact ⟨e, ⟨he, h1⟩, rfl⟩

theorem mem_collocSet {r : SplitPlan} {n x : Nat} :
    x ∈ collocSet r n ↔ x = n ∨ ∃ e ∈ r, e.2.1 = n ∧ e.2.2 = x := by
  rw [collocSet, Finset.mem_insert, mem_nodeIds]

theorem except_bind_ok {α β ε : Type} (a : α) (f : α → Except ε β) :
    (Except.ok a >>= f) = f a := rfl

set_option maxHeartbeats 2000000 in
/-- C6: with at least one fracture node, the surface-mesh generation
succeeds and its `collocated_nodes` table is a `P × W` table initialised to
`-1`, where row `k` lists exactly the original 3d node assigned to 2d index
`k` together with every id the split plan assigns to that node in any cell,
and `W` is the largest such collocation set over all rows. -/
theorem fracture_C6_collocated_nodes (pts : List Pt) (fi : FractureInfo) (r : SplitPlan)
    (hP0 : fi.node_to_cells ≠ [])
    (hkeysnd : (fi.node_to_cells.map (fun p => p.1)).Nodup)
    (hR1 : ∀ e ∈ r, e.2.1 ∈ fi.node_to_cells.map (fun p => p.1) ∧ e.2.1 ≤ e.2.2)
    (hR2 : ∀ n ∈ fi.node_to_cells.map (fun p => p.1), ∃ e ∈ r, e.2.1 = n)
    (hfaces : ∀ fn ∈ fi.face_nodes, ∀ v ∈ fn, v ∈ fi.node_to_cells.map (fun p => p.1)) :
    ∃ fm W, generate_fracture_mesh pts fi r = .ok fm ∧
      fm.collocated.length = fi.node_to_cells.length ∧
      (∀ row ∈ fm.collocated, row.length = W) ∧
      (∀ k, k < fi.node_to_cells.length →
        ∃ b : List Nat, b.Nodup ∧
          b.toFinset = collocSet r ((fi.node_to_cells.map (fun p => p.1)).getD k 0) ∧
          fm.collocated.getD k [] =
            b.map Int.ofNat ++ List.replicate (W - b.length) (-1)) ∧
      (∀ k, k < fi.node_to_cells.length →
        (collocSet r ((fi.node_to_cells.map (fun p => p.1)).getD k 0)).card ≤ W) ∧
      (∃ k, k < fi.node_to_cells.length ∧
        (collocSet r ((fi.node_to_cells.map (fun p => p.1)).getD k 0)).card = W) := by
  have hlenmap : (fi.node_to_cells.map (fun p => p.1)).length = fi.node_to_cells.length :=
    List.length_map _ _
  have hpoly : fi.face_nodes.mapM (fun ns => ns.mapM (fun n =>
      getOrErr ((fi.node_to_cells.map (fun p => p.1)).indexOf? n) FracErr.keyError)) =
      .ok (fi.face_nodes.map (fun ns => ns.map (fun n =>
        ((fi.node_to_cells.map (fun p => p.1)).indexOf? n).getD 0))) := by
    apply mapM_ok_of
    intro ns hns
    apply mapM_ok_of
    intro n hn
    obtain ⟨v, hv, _, _⟩ := indexOf?_of_mem (hfaces ns hns n hn)
    rw [hv]
    rfl
  have hbuck : r.foldlM (fun (bks : List (Nat × List Nat)) (e : Nat × Nat × Nat) =>
        ((do
          let k ← getOrErr ((fi.node_to_cells.map (fun p => p.1)).indexOf?
            (min e.2.1 e.2.2)) FracErr.keyError
          Except.ok (bucketAdd bks k [e.2.1, e.2.2])) :
          Except FracErr (List (Nat × List Nat)))) [] =
      (.ok (r.foldl (fun (bks : List (Nat × List Nat)) (e : Nat × Nat × Nat) =>
        bucketAdd bks
        (((fi.node_to_cells.map (fun p => p.1)).indexOf? (min e.2.1 e.2.2)).getD 0)
        [e.2.1, e.2.2]) []) : Except FracErr (List (Nat × List Nat))) := by
    apply foldlM_ok_of
    intro bks e he
    have hmin : min e.2.1 e.2.2 = e.2.1 := Nat.min_eq_left (hR1 e he).2
    obtain ⟨v, hv, _, _⟩ := indexOf?_of_mem (hR1 e he).1
    rw [hmin, hv]
    rfl
  have hkeyiff : ∀ e ∈ r, ∀ k < fi.node_to_cells.length,
      ((((fi.node_to_cells.map (fun p => p.1)).indexOf? (min e.2.1 e.2.2)).getD 0 = k) ↔
        e.2.1 = (fi.node_to_cells.map (fun p => p.1)).getD k 0) := by
    intro e he k hk
    rw [Nat.min_eq_left (hR1 e he).2]
    obtain ⟨v, hv, hvlt, hvg⟩ := indexOf?_of_mem (hR1 e he).1
    rw [hv]
    simp only [Option.getD_some]
    constructor
    · rintro rfl
      exact hvg.symm
    · intro hx
      have hidx := indexOf?_getD_nodup hkeysnd (show k < (fi.node_to_cells.map
        (fun p => p.1)).length by omega)
      rw [← hx] at hidx
      rw [hidx] at hv
      exact (Option.some.injEq _ _).mp hv.symm
  have hassert : ((r.foldl (fun bks e => bucketAdd bks
      (((fi.node_to_cells.map (fun p => p.1)).indexOf? (min e.2.1 e.2.2)).getD 0)
      [e.2.1, e.2.2]) []).map (fun b => b.1)).toFinset =
      Finset.range (fi.node_to_cells.map (fun p => p.1)).length := by
    ext k
    rw [List.mem_toFinset, bucketsFold_keys, Finset.mem_range]
    constructor
    · rintro (h | ⟨e, he, hkey⟩)
      · simp at h
      · rw [Nat.min_eq_left (hR1 e he).2] at hkey
        obtain ⟨v, hv, hvlt, _⟩ := indexOf?_of_mem (hR1 e he).1
        rw [hv] at hkey
        simp only [Option.getD_some] at hkey
        omega
    · intro hk
      right
      have hmem : (fi.node_to_cells.map (fun p => p.1)).getD k 0 ∈
          fi.node_to_cells.map (fun p => p.1) := by
        rw [List.getD_eq_getElem _ 0 hk]
        exact List.getElem_mem hk
      obtain ⟨e, he, he1⟩ := hR2 _ hmem
      exact ⟨e, he, (hkeyiff e he k (by omega)).mpr he1⟩
  have hBkeysnd : (((r.foldl (fun bks e => bucketAdd bks
      (((fi.node_to_cells.map (fun p => p.1)).indexOf? (min e.2.1 e.2.2)).getD 0)
      [e.2.1, e.2.2]) [])).map (fun b => b.1)).Nodup :=
    bucketsFold_keys_nodup _ r [] (by simp)
  have hP0' : 0 < fi.node_to_cells.length := by
    cases h : fi.node_to_cells with
    | nil => exact absurd h hP0
    | cons a l => simp [h]
  have hBne : ¬ ((r.foldl (fun bks e => bucketAdd bks
      (((fi.node_to_cells.map (fun p => p.1)).indexOf? (min e.2.1 e.2.2)).getD 0)
      [e.2.1, e.2.2]) []).isEmpty = true) := by
    intro hemp
    rw [List.isEmpty_iff] at hemp
    have h0 : (0 : Nat) ∈ Finset.range (fi.node_to_cells.map (fun p => p.1)).length := by
      rw [Finset.mem_range]
      omega
    rw [← hassert, hemp] at h0
    simp at h0
  have hgetnodup : ∀ k, (bucketGet (r.foldl (fun bks e => bucketAdd bks
      (((fi.node_to_cells.map (fun p => p.1)).indexOf? (min e.2.1 e.2.2)).getD 0)
      [e.2.1, e.2.2]) []) k).Nodup :=
    bucketsFold_get_nodup _ r [] (fun k => by simp [bucketGet])
  have hgetmem : ∀ k, k < fi.node_to_cells.length → ∀ x,
      (x ∈ bucketGet (r.foldl (fun bks e => bucketAdd bks
        (((fi.node_to_cells.map (fun p => p.1)).indexOf? (min e.2.1 e.2.2)).getD 0)
        [e.2.1, e.2.2]) []) k ↔
      x ∈ collocSet r ((fi.node_to_cells.map (fun p => p.1)).getD k 0)) := by
    intro k hk x
    rw [bucketsFold_get, mem_collocSet]
    constructor
    · rintro (h | ⟨e, he, hkey, hx⟩)
      · simp [bucketGet] at h
      · have he1 := (hkeyiff e he k hk).mp hkey
        rcases hx with rfl | rfl
        · exact .inl he1
        · exact .inr ⟨e, he, he1, rfl⟩
    · rintro (rfl | ⟨e, he, he1, rfl⟩)
      · have hmem : (fi.node_to_cells.map (fun p => p.1)).getD k 0 ∈
            fi.node_to_cells.map (fun p => p.1) := by
          rw [List.getD_eq_getElem _ 0 (by omega)]
          exact List.getElem_mem (by omega)
        obtain ⟨e, he, he1⟩ := hR2 _ hmem
        exact .inr ⟨e, he, (hkeyiff e he k hk).mpr he1, .inl he1.symm⟩
      · exact .inr ⟨e, he, (hkeyiff e he k hk).mpr he1, .inr rfl⟩
  have hlenTle : ∀ k, k < fi.node_to_cells.length →
      (bucketGet (r.foldl (fun bks e => bucketAdd bks
        (((fi.node_to_cells.map (fun p => p.1)).indexOf? (min e.2.1 e.2.2)).getD 0)
        [e.2.1, e.2.2]) []) k).length ≤
      ((r.foldl (fun bks e => bucketAdd bks
        (((fi.node_to_cells.map (fun p => p.1)).indexOf? (min e.2.1 e.2.2)).getD 0)
        [e.2.1, e.2.2]) []).map (fun b => b.2.length)).foldl Nat.max 0 := by
    intro k hk
    have hkmem : k ∈ ((r.foldl (fun bks e => bucketAdd bks
        (((fi.node_to_cells.map (fun p => p.1)).indexOf? (min e.2.1 e.2.2)).getD 0)
        [e.2.1, e.2.2]) [])).map (fun b => b.1) := by
      rw [← List.mem_toFinset, hassert, Finset.mem_range]
      omega
    have hbm := bucketGet_mem_of_key _ hkmem
    exact (le_foldl_max _ 0).2 _ (List.mem_map.mpr ⟨_, hbm, rfl⟩)
  have hcardlen : ∀ k, k < fi.node_to_cells.length →
      (collocSet r ((fi.node_to_cells.map (fun p => p.1)).getD k 0)).card =
      (bucketGet (r.foldl (fun bks e => bucketAdd bks
        (((fi.node_to_cells.map (fun p => p.1)).indexOf? (min e.2.1 e.2.2)).getD 0)
        [e.2.1, e.2.2]) []) k).length := by
    intro k hk
    have hset : (bucketGet (r.foldl (fun bks e => bucketAdd bks
        (((fi.node_to_cells.map (fun p => p.1)).indexOf? (min e.2.1 e.2.2)).getD 0)
        [e.2.1, e.2.2]) []) k).toFinset =
        collocSet r ((fi.node_to_cells.map (fun p => p.1)).getD k 0) := by
      ext x
      rw [List.mem_toFinset]
      exact hgetmem k hk x
    rw [← hset, List.toFinset_card_of_nodup (hgetnodup k)]
  have hgen : generate_fracture_mesh pts fi r = .ok
      ⟨(fi.node_to_cells.map (fun p => p.1)).map (fun n => pts.getD n pt0),
       fi.face_nodes.map (fun ns => ns.map (fun n =>
         ((fi.node_to_cells.map (fun p => p.1)).indexOf? n).getD 0)),
       (List.range (fi.node_to_cells.map (fun p => p.1)).length).map (fun k =>
         (bucketGet (r.foldl (fun bks e => bucketAdd bks
           (((fi.node_to_cells.map (fun p => p.1)).indexOf? (min e.2.1 e.2.2)).getD 0)
           [e.2.1, e.2.2]) []) k).map Int.ofNat ++
         List.replicate ((((r.foldl (fun bks e => bucketAdd bks
           (((fi.node_to_cells.map (fun p => p.1)).indexOf? (min e.2.1 e.2.2)).getD 0)
           [e.2.1, e.2.2]) [])).map (fun b => b.2.length)).foldl Nat.max 0 -
           (bucketGet (r.foldl (fun bks e => bucketAdd bks
             (((fi.node_to_cells.map (fun p => p.1)).indexOf? (min e.2.1 e.2.2)).getD 0)
             [e.2.1, e.2.2]) []) k).length) (-1))⟩ := by
    unfold generate_fracture_mesh
    simp only [hpoly, hbuck, except_bind_ok]
    rw [if_pos hassert, if_neg hBne]
  refine ⟨_, (((r.foldl (fun bks e => bucketAdd bks
      (((fi.node_to_cells.map (fun p => p.1)).indexOf? (min e.2.1 e.2.2)).getD 0)
      [e.2.1, e.2.2]) [])).map (fun b => b.2.length)).foldl Nat.max 0,
    hgen, ?_, ?_, ?_, ?_, ?_⟩
  · simp [hlenmap]
  · intro row hrow
    simp only [List.mem_map, List.mem_range] at hrow
    obtain ⟨k, hk, rfl⟩ := hrow
    rw [List.length_append, List.length_map, List.length_replicate]
    have := hlenTle k (by omega)
    omega
  · intro k hk
    refine ⟨bucketGet (r.foldl (fun bks e => bucketAdd bks
      (((fi.node_to_cells.map (fun p => p.1)).indexOf? (min e.2.1 e.2.2)).getD 0)
      [e.2.1, e.2.2]) []) k, hgetnodup k, ?_, ?_⟩
    · ext x
      rw [List.mem_toFinset]
      exact hgetmem k hk x
    · show ((List.range (fi.node_to_cells.map (fun p => p.1)).length).map _).getD k [] = _
      rw [getD_map_range _ _ (by omega)]
  · intro k hk
    rw [hcardlen k hk]
    exact hlenTle k hk
  · rcases foldl_max_choice ((r.foldl (fun bks e => bucketAdd bks
        (((fi.node_to_cells.map (fun p => p.1)).indexOf? (min e.2.1 e.2.2)).getD 0)
        [e.2.1, e.2.2]) []).map (fun b => b.2.length)) 0 with hzero | hmem
    · exfalso
      have h1 := hcardlen 0 hP0'
      have h2 := hlenTle 0 hP0'
      rw [hzero] at h2
      have h3 : 0 < (collocSet r ((fi.node_to_cells.map (fun p => p.1)).getD 0 0)).card :=
        Finset.card_pos.mpr ⟨_, Finset.mem_insert_self _ _⟩
      omega
    · obtain ⟨b, hb, hblen⟩ := List.mem_map.mp hmem
      have hkmem : b.1 ∈ ((r.foldl (fun bks e => bucketAdd bks
          (((fi.node_to_cells.map (fun p => p.1)).indexOf? (min e.2.1 e.2.2)).getD 0)
          [e.2.1, e.2.2]) [])).map (fun bb => bb.1) :=
        List.mem_map.mpr ⟨b, hb, rfl⟩
      have hklt : b.1 < fi.node_to_cells.length := by
        have := hkmem
        rw [← List.mem_toFinset, hassert, Finset.mem_range] at this
        omega
      refine ⟨b.1, hklt, ?_⟩
      rw [hcardlen b.1 hklt, bucketGet_of_mem_nodup _ hBkeysnd hb, hblen]

/-- Witness for C6 at the two-tet mesh. -/
theorem fracture_C6_collocated_nodes_witness :
    (fiA.node_to_cells ≠ [] ∧
     (fiA.node_to_cells.map (fun p => p.1)).Nodup ∧
     (∀ e ∈ planA, e.2.1 ∈ fiA.node_to_cells.map (fun p => p.1) ∧ e.2.1 ≤ e.2.2) ∧
     (∀ n ∈ fiA.node_to_cells.map (fun p => p.1), ∃ e ∈ planA, e.2.1 = n) ∧
     (∀ fn ∈ fiA.face_nodes, ∀ v ∈ fn, v ∈ fiA.node_to_cells.map (fun p => p.1))) ∧
    (∃ fm W, generate_fracture_mesh mesh2.points fiA planA = .ok fm ∧
      fm.collocated.length = fiA.node_to_cells.length ∧
      (∀ row ∈ fm.collocated, row.length = W) ∧
      (∀ k, k < fiA.node_to_cells.length →
        ∃ b : List Nat, b.Nodup ∧
          b.toFinset = collocSet planA ((fiA.node_to_cells.map (fun p => p.1)).getD k 0) ∧
          fm.collocated.getD k [] =
            b.map Int.ofNat ++ List.replicate (W - b.length) (-1)) ∧
      (∀ k, k < fiA.node_to_cells.length →
        (collocSet planA ((fiA.node_to_cells.map (fun p => p.1)).getD k 0)).card ≤ W) ∧
      (∃ k, k < fiA.node_to_cells.length ∧
        (collocSet planA ((fiA.node_to_cells.map (fun p => p.1)).getD k 0)).card = W)) :=
  ⟨⟨by decide, by decide, by decide, by decide, by decide⟩,
   fracture_C6_collocated_nodes mesh2.points fiA planA (by decide) (by decide)
     (by decide) (by decide) (by decide)⟩

/-! The fracture-face scan of `build_fracture_info` (claim C1). -/

theorem scanFaces_ok (m : Mesh) (f V : List Int) (cid : Nat)
    (h : ∀ i < (m.cells.getD cid emptyCell).faces.length,
      (cellNeighbors m cid (faceOf m cid i)).length ≤ 1) :
    scanFaces m f V cid = .ok (((List.range (m.cells.getD cid emptyCell).faces.length).map
      (fun i => ((cellNeighbors m cid (faceOf m cid i)).filter
        (fun nb => f.getD nb 0 != f.getD cid 0 && V.contains (f.getD nb 0))).map
        (fun _ => i))).flatten) := by
  have hstep := foldlM_ok_of
    (l := List.range (m.cells.getD cid emptyCell).faces.length)
    (f := fun acc i =>
      let nbs := cellNeighbors m cid (faceOf m cid i)
      if 2 ≤ nbs.length then (.error .assertionFailed : Except FracErr (List Nat))
      else
        .ok (acc ++ (nbs.filter
          (fun nb => f.getD nb 0 != f.getD cid 0 && V.contains (f.getD nb 0))).map
          (fun _ => i)))
    (g := fun acc i => acc ++ ((cellNeighbors m cid (faceOf m cid i)).filter
      (fun nb => f.getD nb 0 != f.getD cid 0 && V.contains (f.getD nb 0))).map
      (fun _ => i))
    (by
      intro b a ha
      show (if 2 ≤ (cellNeighbors m cid (faceOf m cid a)).length
        then (.error .assertionFailed : Except FracErr (List Nat))
        else .ok (b ++ ((cellNeighbors m cid (faceOf m cid a)).filter
          (fun nb => f.getD nb 0 != f.getD cid 0 && V.contains (f.getD nb 0))).map
          (fun _ => a))) =
        .ok (b ++ ((cellNeighbors m cid (faceOf m cid a)).filter
          (fun nb => f.getD nb 0 != f.getD cid 0 && V.contains (f.getD nb 0))).map
          (fun _ => a))
      rw [if_neg (by have := h a (List.mem_range.mp ha); omega)])
    []
  calc scanFaces m f V cid
      = .ok ((List.range (m.cells.getD cid emptyCell).faces.length).foldl
          (fun acc i => acc ++ ((cellNeighbors m cid (faceOf m cid i)).filter
            (fun nb => f.getD nb 0 != f.getD cid 0 && V.contains (f.getD nb 0))).map
            (fun _ => i)) []) := hstep
    _ = _ := by
        rw [foldl_append_flatten (fun i => ((cellNeighbors m cid (faceOf m cid i)).filter
          (fun nb => f.getD nb 0 != f.getD cid 0 && V.contains (f.getD nb 0))).map
          (fun _ => i))]
        rfl

theorem qualifyingPairs_ok (m : Mesh) (f V : List Int) (hman : ManifoldMesh m) :
    qualifyingPairs m f V = .ok (((List.range m.cells.length).map
      (fun cid => if V.contains (f.getD cid 0) then
        ((((List.range (m.cells.getD cid emptyCell).faces.length).map
          (fun i => ((cellNeighbors m cid (faceOf m cid i)).filter
            (fun nb => f.getD nb 0 != f.getD cid 0 && V.contains (f.getD nb 0))).map
            (fun _ => i))).flatten).map (fun i => (cid, i)))
        else [])).flatten) := by
  have hstep := foldlM_ok_of
    (l := List.range m.cells.length)
    (f := fun acc cid =>
      if V.contains (f.getD cid 0) then
        (scanFaces m f V cid).map (fun fis => acc ++ fis.map (fun i => (cid, i)))
      else .ok acc)
    (g := fun acc cid => acc ++ (if V.contains (f.getD cid 0) then
        ((((List.range (m.cells.getD cid emptyCell).faces.length).map
          (fun i => ((cellNeighbors m cid (faceOf m cid i)).filter
            (fun nb => f.getD nb 0 != f.getD cid 0 && V.contains (f.getD nb 0))).map
            (fun _ => i))).flatten).map (fun i => (cid, i)))
        else []))
    (by
      intro b a ha
      simp only []
      by_cases hv : V.contains (f.getD a 0)
      · rw [if_pos hv, if_pos hv,
          scanFaces_ok m f V a (fun i hi => hman a (List.mem_range.mp ha) i hi)]
        rfl
      · rw [if_neg hv, if_neg hv, List.append_nil])
    []
  calc qualifyingPairs m f V
      = .ok ((List.range m.cells.length).foldl
          (fun acc cid => acc ++ (if V.contains (f.getD cid 0) then
            ((((List.range (m.cells.getD cid emptyCell).faces.length).map
              (fun i => ((cellNeighbors m cid (faceOf m cid i)).filter
                (fun nb => f.getD nb 0 != f.getD cid 0 && V.contains (f.getD nb 0))).map
                (fun _ => i))).flatten).map (fun i => (cid, i)))
            else [])) []) := hstep
    _ = _ := by
        rw [foldl_append_flatten (fun cid => (if V.contains (f.getD cid 0) then
          ((((List.range (m.cells.getD cid emptyCell).faces.length).map
            (fun i => ((cellNeighbors m cid (faceOf m cid i)).filter
              (fun nb => f.getD nb 0 != f.getD cid 0 && V.contains (f.getD nb 0))).map
              (fun _ => i))).flatten).map (fun i => (cid, i)))
          else []))]
        rfl

theorem mem_recordedPairs (m : Mesh) (f V : List Int) {c i : Nat} :
    ((c, i) ∈ ((List.range m.cells.length).map
      (fun cid => if V.contains (f.getD cid 0) then
        ((((List.range (m.cells.getD cid emptyCell).faces.length).map
          (fun i => ((cellNeighbors m cid (faceOf m cid i)).filter
            (fun nb => f.getD nb 0 != f.getD cid 0 && V.contains (f.getD nb 0))).map
            (fun _ => i))).flatten).map (fun i => (cid, i)))
        else [])).flatten) ↔
      (c < m.cells.length ∧ V.contains (f.getD c 0) = true ∧
        i < (m.cells.getD c emptyCell).faces.length ∧
        ∃ nb ∈ cellNeighbors m c (faceOf m c i),
          (f.getD nb 0 != f.getD c 0 && V.contains (f.getD nb 0)) = true) := by
  rw [List.mem_flatten]
  constructor
  · rintro ⟨l, hl, hmem⟩
    obtain ⟨cid, hcid, rfl⟩ := List.mem_map.mp hl
    by_cases hv : V.contains (f.getD cid 0)
    · rw [if_pos hv] at hmem
      obtain ⟨i', hi', heq⟩ := List.mem_map.mp hmem
      have hceq : cid = c := congrArg Prod.fst heq
      have hieq : i' = i := congrArg Prod.snd heq
      subst hceq
      subst hieq
      rw [List.mem_flatten] at hi'
      obtain ⟨l2, hl2, hmm⟩ := hi'
      obtain ⟨j, hj, rfl⟩ := List.mem_map.mp hl2
      obtain ⟨nb, hnb, hji⟩ := List.mem_map.mp hmm
      have hj' : j = i' := hji
      subst hj'
      refine ⟨List.mem_range.mp hcid, hv, List.mem_range.mp hj, ?_⟩
      have hnb' := List.mem_filter.mp hnb
      exact ⟨nb, hnb'.1, hnb'.2⟩
    · rw [if_neg hv] at hmem
      simp at hmem
  · rintro ⟨hc, hv, hi, nb, hnb, hpred⟩
    refine ⟨(((List.range (m.cells.getD c emptyCell).faces.length).map
      (fun i => ((cellNeighbors m c (faceOf m c i)).filter
        (fun nb => f.getD nb 0 != f.getD c 0 && V.contains (f.getD nb 0))).map
        (fun _ => i))).flatten).map (fun i => (c, i)), ?_, ?_⟩
    · refine List.mem_map.mpr ⟨c, List.mem_range.mpr hc, ?_⟩
      rw [if_pos hv]
    · refine List.mem_map.mpr ⟨i, ?_, rfl⟩
      refine List.mem_flatten.mpr ⟨((cellNeighbors m c (faceOf m c i)).filter
        (fun nb => f.getD nb 0 != f.getD c 0 && V.contains (f.getD nb 0))).map
        (fun _ => i), ?_, ?_⟩
      · exact List.mem_map_of_mem _ (List.mem_range.mpr hi)
      · exact List.mem_map.mpr ⟨nb, List.mem_filter.mpr ⟨hnb, hpred⟩, rfl⟩

theorem dedupAux_mem_sets (m : Mesh) :
    ∀ (pairs : List (Nat × Nat)) (acc : List (List Nat)) (seen : List (Finset Nat)),
      (∀ s, s ∈ seen ↔ ∃ fn ∈ acc, fn.toFinset = s) →
      ∀ s : Finset Nat, ((∃ fn ∈ dedupAux m pairs acc seen, fn.toFinset = s) ↔
        (∃ fn ∈ acc, fn.toFinset = s) ∨
        ∃ ci ∈ pairs, (faceOf m ci.1 ci.2).toFinset = s) := by
  intro pairs
  induction pairs with
  | nil => intro acc seen hinv s; simp [dedupAux]
  | cons ci rest ih =>
    intro acc seen hinv s
    obtain ⟨c, i⟩ := ci
    show (∃ fn ∈ (if (faceOf m c i).toFinset ∈ seen then dedupAux m rest acc seen
      else dedupAux m rest (acc ++ [faceOf m c i]) ((faceOf m c i).toFinset :: seen)),
      fn.toFinset = s) ↔ _
    by_cases hs : (faceOf m c i).toFinset ∈ seen
    · rw [if_pos hs, ih acc seen hinv s]
      constructor
      · rintro (h | ⟨ci', hci', hset⟩)
        · exact .inl h
        · exact .inr ⟨ci', List.mem_cons_of_mem _ hci', hset⟩
      · rintro (h | ⟨ci', hci', hset⟩)
        · exact .inl h
        · rcases List.mem_cons.mp hci' with rfl | hci''
          · exact .inl ((hinv s).mp (hset ▸ hs))
          · exact .inr ⟨ci', hci'', hset⟩
    · rw [if_neg hs, ih (acc ++ [faceOf m c i]) ((faceOf m c i).toFinset :: seen) ?_ s]
      · constructor
        · rintro (⟨fn, hfn, hset⟩ | ⟨ci', hci', hset⟩)
          · rcases List.mem_append.mp hfn with hfn' | hfn'
            · exact .inl ⟨fn, hfn', hset⟩
            · have : fn = faceOf m c i := by simpa using hfn'
              subst this
              exact .inr ⟨(c, i), List.mem_cons_self _ _, hset⟩
          · exact .inr ⟨ci', List.mem_cons_of_mem _ hci', hset⟩
        · rintro (⟨fn, hfn, hset⟩ | ⟨ci', hci', hset⟩)
          · exact .inl ⟨fn, List.mem_append.mpr (.inl hfn), hset⟩
          · rcases List.mem_cons.mp hci' with rfl | hci''
            · exact .inl ⟨faceOf m c i, List.mem_append.mpr (.inr (by simp)), hset⟩
            · exact .inr ⟨ci', hci'', hset⟩
      · intro s'
        constructor
        · intro hs'
          rcases List.mem_cons.mp hs' with rfl | hs''
          · exact ⟨faceOf m c i, List.mem_append.mpr (.inr (by simp)), rfl⟩
          · obtain ⟨fn, hfn, hset⟩ := (hinv s').mp hs''
            exact ⟨fn, List.mem_append.mpr (.inl hfn), hset⟩
        · rintro ⟨fn, hfn, hset⟩
          rcases List.mem_append.mp hfn with hfn' | hfn'
          · exact List.mem_cons_of_mem _ ((hinv s').mpr ⟨fn, hfn', hset⟩)
          · have : fn = faceOf m c i := by simpa using hfn'
            subst this
            exact hset ▸ List.mem_cons_self _ _

theorem dedupAux_sets_nodup (m : Mesh) :
    ∀ (pairs : List (Nat × Nat)) (acc : List (List Nat)) (seen : List (Finset Nat)),
      (∀ s, s ∈ seen ↔ ∃ fn ∈ acc, fn.toFinset = s) →
      (acc.map List.toFinset).Nodup →
      ((dedupAux m pairs acc seen).map List.toFinset).Nodup := by
  intro pairs
  induction pairs with
  | nil => intro acc seen _ hnd; exact hnd
  | cons ci rest ih =>
    intro acc seen hinv hnd
    obtain ⟨c, i⟩ := ci
    show ((if (faceOf m c i).toFinset ∈ seen then dedupAux m rest acc seen
      else dedupAux m rest (acc ++ [faceOf m c i])
        ((faceOf m c i).toFinset :: seen)).map List.toFinset).Nodup
    by_cases hs : (faceOf m c i).toFinset ∈ seen
    · rw [if_pos hs]
      exact ih acc seen hinv hnd
    · rw [if_neg hs]
      refine ih (acc ++ [faceOf m c i]) ((faceOf m c i).toFinset :: seen) ?_ ?_
      · intro s'
        constructor
        · intro hs'
          rcases List.mem_cons.mp hs' with rfl | hs''
          · exact ⟨faceOf m c i, List.mem_append.mpr (.inr (by simp)), rfl⟩
          · obtain ⟨fn, hfn, hset⟩ := (hinv s').mp hs''
            exact ⟨fn, List.mem_append.mpr (.inl hfn), hset⟩
        · rintro ⟨fn, hfn, hset⟩
          rcases List.mem_append.mp hfn with hfn' | hfn'
          · exact List.mem_cons_of_mem _ ((hinv s').mpr ⟨fn, hfn', hset⟩)
          · have : fn = faceOf m c i := by simpa using hfn'
            subst this
            exact hset ▸ List.mem_cons_self _ _
      · rw [List.map_append]
        simp only [List.map_cons, List.map_nil]
        rw [List.nodup_append]
        refine ⟨hnd, List.nodup_singleton _, ?_⟩
        intro s' hs' hs''
        have : s' = (faceOf m c i).toFinset := by simpa using hs''
        subst this
        obtain ⟨fn, hfn, hset⟩ := List.mem_map.mp hs'
        exact hs ((hinv _).mpr ⟨fn, hfn, hset⟩)

set_option maxHeartbeats 1600000 in
/-- C1: under the mesh invariants the source asserts (an interior face seen
from at most one neighbor, conforming faces), fracture detection succeeds,
and a vertex-set appears among the recorded fracture faces exactly when it
is an interior face shared by two cells whose field values both lie in the
admitted set and differ.  Boundary faces are never recorded, and the face
list holds each vertex-set at most once. -/
theorem fracture_C1_face_detection (m : Mesh) (field : String) (f V : List Int)
    (hf : getCellField m field = some f)
    (hman : ManifoldMesh m)
    (hconf : ConformingMesh m) :
    ∃ fi, build_fracture_info m field V = .ok fi ∧
      (∀ s : Finset Nat,
        (∃ fn ∈ fi.face_nodes, fn.toFinset = s) ↔ IsFractureFaceSet m f V s) ∧
      (fi.face_nodes.map List.toFinset).Nodup ∧
      (∀ s : Finset Nat, IsBoundaryFaceSet m s →
        ¬ ∃ fn ∈ fi.face_nodes, fn.toFinset = s) := by
  have hq := qualifyingPairs_ok m f V hman
  have hbuild : build_fracture_info m field V = .ok
      ⟨build_node_to_cells m (dedupAux m (((List.range m.cells.length).map
        (fun cid => if V.contains (f.getD cid 0) then
          ((((List.range (m.cells.getD cid emptyCell).faces.length).map
            (fun i => ((cellNeighbors m cid (faceOf m cid i)).filter
              (fun nb => f.getD nb 0 != f.getD cid 0 && V.contains (f.getD nb 0))).map
              (fun _ => i))).flatten).map (fun i => (cid, i)))
          else [])).flatten) [] []),
        dedupAux m (((List.range m.cells.length).map
        (fun cid => if V.contains (f.getD cid 0) then
          ((((List.range (m.cells.getD cid emptyCell).faces.length).map
            (fun i => ((cellNeighbors m cid (faceOf m cid i)).filter
              (fun nb => f.getD nb 0 != f.getD cid 0 && V.contains (f.getD nb 0))).map
              (fun _ => i))).flatten).map (fun i => (cid, i)))
          else [])).flatten) [] []⟩ := by
    unfold build_fracture_info
    rw [hf]
    simp only [hq, except_bind_ok]
  have hiff : ∀ s : Finset Nat,
      (∃ fn ∈ dedupAux m (((List.range m.cells.length).map
        (fun cid => if V.contains (f.getD cid 0) then
          ((((List.range (m.cells.getD cid emptyCell).faces.length).map
            (fun i => ((cellNeighbors m cid (faceOf m cid i)).filter
              (fun nb => f.getD nb 0 != f.getD cid 0 && V.contains (f.getD nb 0))).map
              (fun _ => i))).flatten).map (fun i => (cid, i)))
          else [])).flatten) [] [], fn.toFinset = s) ↔ IsFractureFaceSet m f V s := by
    intro s
    rw [dedupAux_mem_sets m _ [] [] (by simp) s]
    simp only [List.not_mem_nil, false_and, exists_false, false_or]
    constructor
    · rintro ⟨ci, hci, hset⟩
      obtain ⟨c, i⟩ := ci
      rw [mem_recordedPairs] at hci
      obtain ⟨hc, hv, hi, nb, hnb, hpred⟩ := hci
      have hpred' : f.getD nb 0 ≠ f.getD c 0 ∧ f.getD nb 0 ∈ V := by
        rw [Bool.and_eq_true, bne_iff_ne] at hpred
        exact ⟨hpred.1, List.elem_iff.mp hpred.2⟩
      have hnbf := List.mem_filter.mp hnb
      have hnblt : nb < m.cells.length := List.mem_range.mp hnbf.1
      have hnbp := hnbf.2
      rw [Bool.and_eq_true, bne_iff_ne] at hnbp
      have hsub : ∀ v ∈ faceOf m c i, v ∈ (m.cells.getD nb emptyCell).pointIds := by
        intro v hv'
        have := (List.all_eq_true.mp hnbp.2) v hv'
        exact List.elem_iff.mp this
      refine ⟨c, Finset.mem_range.mpr hc, nb, Finset.mem_range.mpr hnblt,
        fun he => hnbp.1 he.symm, ?_, ?_, List.elem_iff.mp hv, hpred'.2,
        fun he => hpred'.1 he.symm⟩
      · refine ⟨faceOf m c i, ?_, hset⟩
        rw [faceOf, List.getD_eq_getElem _ [] hi]
        exact List.getElem_mem hi
      · rw [← hset]
        exact hconf c hc i hi nb hnblt hsub
    · rintro ⟨c1, hc1, c2, hc2, hne, hface1, hface2, hv1, hv2, hneq⟩
      obtain ⟨fl, hfl, hflset⟩ := hface1
      obtain ⟨i, hi, hgi⟩ := List.mem_iff_getElem.mp hfl
      have hfaceOf : faceOf m c1 i = fl := by
        rw [faceOf, List.getD_eq_getElem _ [] hi, hgi]
      have hsub : ∀ v ∈ faceOf m c1 i, v ∈ (m.cells.getD c2 emptyCell).pointIds := by
        intro v hv'
        rw [hfaceOf] at hv'
        obtain ⟨fl2, hfl2, hfl2set⟩ := hface2
        have hvm : v ∈ fl2 := by
          have hv'' : v ∈ fl.toFinset := List.mem_toFinset.mpr hv'
          rw [hflset, ← hfl2set] at hv''
          exact List.mem_toFinset.mp hv''
        rw [Cell.pointIds, List.mem_dedup]
        exact List.mem_flatten.mpr ⟨fl2, hfl2, hvm⟩
      have hc2n : c2 ∈ cellNeighbors m c1 (faceOf m c1 i) := by
        rw [cellNeighbors, List.mem_filter]
        refine ⟨List.mem_range.mpr (Finset.mem_range.mp hc2), ?_⟩
        rw [Bool.and_eq_true, bne_iff_ne]
        refine ⟨fun he => hne he.symm, ?_⟩
        rw [List.all_eq_true]
        intro v hv'
        exact List.elem_iff.mpr (hsub v hv')
      refine ⟨(c1, i), ?_, by
        show (faceOf m c1 i).toFinset = s
        rw [hfaceOf]
        exact hflset⟩
      rw [mem_recordedPairs]
      refine ⟨Finset.mem_range.mp hc1, List.elem_iff.mpr hv1, hi, c2, hc2n, ?_⟩
      rw [Bool.and_eq_true, bne_iff_ne]
      exact ⟨fun he => hneq he.symm, List.elem_iff.mpr hv2⟩
  refine ⟨_, hbuild, hiff, ?_, ?_⟩
  · exact dedupAux_sets_nodup m _ [] [] (by simp) (by simp)
  · intro s hb hmem
    obtain ⟨c1, hc1, c2, hc2, hne, hface1, hface2, _⟩ := (hiff s).mp hmem
    have h2 : 1 < ((Finset.range m.cells.length).filter
        (fun c => ∃ fl ∈ (m.cells.getD c emptyCell).faces, fl.toFinset = s)).card := by
      apply Finset.one_lt_card.mpr
      refine ⟨c1, Finset.mem_filter.mpr ⟨hc1, hface1⟩,
        c2, Finset.mem_filter.mpr ⟨hc2, hface2⟩, hne⟩
    rw [IsBoundaryFaceSet] at hb
    omega

/-- Witness for C1 at the two-tet mesh: the shared triangular face is the
unique fracture face. -/
theorem fracture_C1_face_detection_witness :
    (getCellField mesh2 "attribute" = some [1, 2] ∧ ManifoldMesh mesh2 ∧
      ConformingMesh mesh2) ∧
    (∃ fi, build_fracture_info mesh2 "attribute" [1, 2] = .ok fi ∧
      (∀ s : Finset Nat,
        (∃ fn ∈ fi.face_nodes, fn.toFinset = s) ↔ IsFractureFaceSet mesh2 [1, 2] [1, 2] s) ∧
      (fi.face_nodes.map List.toFinset).Nodup ∧
      (∀ s : Finset Nat, IsBoundaryFaceSet mesh2 s →
        ¬ ∃ fn ∈ fi.face_nodes, fn.toFinset = s)) :=
  ⟨⟨rfl, by decide, by decide⟩,
   fracture_C1_face_detection mesh2 "attribute" [1, 2] [1, 2] rfl (by decide) (by decide)⟩

end GenFractures
